import Mathlib

/-!
Verification of the procedural organic-motion renderer of the sweetie-watch
prototype, against its natural-language specification.

The development shallowly embeds the two algorithmic source files:

* `src/unnamed/part_001` — the `GraphSlider` component: the glucose/Y affine
  mapping, the color-zone mapper with blend bands, the sampled-curve lookup
  `getYForX`, and the boundary-crossing / segment-building pass.
  JS numbers are modelled as exact rationals (`ℚ`); `Math.round` is modelled
  as `⌊x + 1/2⌋`, which is what it computes on the values arising here.

* `src/src/js/components/blob.js` — the `SimplexNoise` generator and the
  `GlucoseBlob` motion model (drag, edge return, center lock, per-tick
  update).  These use `Math.sin` / `Math.cos` / `Math.sqrt`, so they are
  modelled over `ℝ`.  DOM-only concerns (SVG attribute writing, cursors,
  the `wasDragged` click-suppression timeout) are outside the model, as the
  spec scopes them out.  Division by zero follows Lean's `x / 0 = 0`
  convention; every division in the modelled code is guarded by a strict
  positivity test on the reachable states the theorems speak about.
-/

namespace GraphSlider

/-- RGB color triple as parsed from a `#rrggbb` literal (integer channels). -/
structure RGB where
  r : ℤ
  g : ℤ
  b : ℤ
deriving DecidableEq, Repr

/-- `#7ED321`, the safe-zone green. -/
def SAFE : RGB := ⟨0x7E, 0xD3, 0x21⟩

/-- `#FFD700`, the warning-zone yellow. -/
def WARNING : RGB := ⟨0xFF, 0xD7, 0x00⟩

/-- `#FF4444`, the danger-zone red. -/
def DANGER : RGB := ⟨0xFF, 0x44, 0x44⟩

/-- JavaScript `Math.round` on the (nonnegative) values arising in the
color blender: round half up, i.e. `⌊x + 1/2⌋`. -/
def jsRound (q : ℚ) : ℤ := ⌊q + 1 / 2⌋

/-- `GraphSlider.blendColors` / `GlucoseBlob.blendColors` (identical code):
channel-wise linear interpolation with rounding. -/
def blendColors (c1 c2 : RGB) (t : ℚ) : RGB :=
  ⟨jsRound (c1.r + (c2.r - c1.r) * t),
   jsRound (c1.g + (c2.g - c1.g) * t),
   jsRound (c1.b + (c2.b - c1.b) * t)⟩

/-- `GraphSlider.getColorForGlucose` (src/unnamed/part_001, lines 802-838):
sequential range tests, blend bands at glucose 9.5–10 and 4.0–4.5. -/
def getColorForGlucose (glucose : ℚ) : RGB :=
  if glucose ≤ 4 ∨ 10 ≤ glucose then DANGER
  else if 9 / 2 ≤ glucose ∧ glucose ≤ 9 then SAFE
  else if 9 < glucose ∧ glucose < 10 then
    if 19 / 2 ≤ glucose then
      blendColors WARNING DANGER ((glucose - 19 / 2) / (1 / 2))
    else WARNING
  else if 4 < glucose ∧ glucose < 9 / 2 then
    blendColors WARNING DANGER ((9 / 2 - glucose) / (1 / 2))
  else SAFE

/-- Glucose thresholds of `blob.js` (`GLUCOSE_RANGES`). -/
def DANGER_LOW : ℚ := 4
def WARNING_LOW : ℚ := 9 / 2
def WARNING_HIGH : ℚ := 9
def DANGER_HIGH : ℚ := 10

/-- `GlucoseBlob.getColorForGlucose` (blob.js, lines 576-616).  Note its
band layout differs from the slider version: the range tests use a ±0.3
margin around the thresholds while the blend fractions divide by 0.5. -/
def blobGetColorForGlucose (glucose : ℚ) : RGB :=
  if glucose < DANGER_LOW - 3 / 10 ∨ DANGER_HIGH + 3 / 10 < glucose then DANGER
  else if WARNING_LOW + 3 / 10 < glucose ∧ glucose < WARNING_HIGH - 3 / 10 then SAFE
  else if WARNING_HIGH - 3 / 10 ≤ glucose ∧ glucose ≤ DANGER_HIGH + 3 / 10 then
    if DANGER_HIGH < glucose then
      blendColors WARNING DANGER (min 1 ((glucose - DANGER_HIGH) / (1 / 2)))
    else if glucose < WARNING_HIGH then
      blendColors WARNING SAFE (min 1 ((WARNING_HIGH - glucose) / (1 / 2)))
    else WARNING
  else if DANGER_LOW - 3 / 10 ≤ glucose ∧ glucose ≤ WARNING_LOW + 3 / 10 then
    if glucose < DANGER_LOW then
      blendColors WARNING DANGER (min 1 ((DANGER_LOW - glucose) / (1 / 2)))
    else if WARNING_LOW < glucose then
      blendColors WARNING SAFE (min 1 ((glucose - WARNING_LOW) / (1 / 2)))
    else WARNING
  else SAFE

/-- Graph domain bounds (`this.minX`, `this.maxX`). -/
def minX : ℚ := 0
def maxX : ℚ := 206

/-- `this.upperBoundaryY`: pixel row for glucose = 10. -/
def upperBoundaryY : ℚ := 96

/-- `this.lowerBoundaryY`: pixel row for glucose = 4. -/
def lowerBoundaryY : ℚ := 156

/-- `glucosePerPixel = 6 / 60` used by both direction of the mapping. -/
def glucosePerPixel : ℚ := 6 / 60

/-- `GraphSlider.yToGlucose` (part_001, lines 474-481). -/
def yToGlucose (y : ℚ) : ℚ := 10 - (y - upperBoundaryY) * glucosePerPixel

/-- `GraphSlider.glucoseToY` (part_001, lines 992-998). -/
def glucoseToY (glucose : ℚ) : ℚ := upperBoundaryY + (10 - glucose) / glucosePerPixel

/-- One entry of the sampled-path lookup table (`this.pathSamples`). -/
structure Sample where
  x : ℚ
  y : ℚ
deriving DecidableEq, Repr

/-- The scan of `GraphSlider.getYForX`: find the first consecutive pair of
samples bracketing `x` (the JS loop with `break`). -/
def bracketLoop : List Sample → ℚ → Option (Sample × Sample)
  | p :: q :: rest, x =>
      if p.x ≤ x ∧ x ≤ q.x then some (p, q) else bracketLoop (q :: rest) x
  | _, _ => none

/-- `GraphSlider.getYForX` (part_001, lines 451-468).  When no bracketing
pair is found, `lower`/`upper` keep their initial values: the overall first
and last samples.  (The JS code indexes `pathSamples[0]` unconditionally;
the model's `getD` default is only reachable for an empty table, which the
component never builds — every theorem below assumes a nonempty table.) -/
def getYForX (samples : List Sample) (x : ℚ) : ℚ :=
  let first := samples.head?.getD ⟨0, 0⟩
  let last := samples.getLast?.getD ⟨0, 0⟩
  let pair := (bracketLoop samples x).getD (first, last)
  let lower := pair.1
  let upper := pair.2
  if upper.x = lower.x then lower.y
  else lower.y + (x - lower.x) / (upper.x - lower.x) * (upper.y - lower.y)

/-- Strictly increasing x-coordinates: the shape of a sorted sample table
with distinct abscissae. -/
def StrictSamples (l : List Sample) : Prop :=
  l.Pairwise fun a b => a.x < b.x

/-- The fixed boundary table of `findBoundaryCrossings`. -/
def boundaries : List (ℚ × String) :=
  [(96, "danger-high"), (106, "warning-high"), (151, "warning-low"), (156, "danger-low")]

/-- A detected zone-boundary crossing. -/
structure Crossing where
  x : ℚ
  y : ℚ
  boundary : String
deriving DecidableEq, Repr

/-- Crossings contributed by one consecutive sample pair: a boundary is hit
when its row lies between the pair's y values (inclusive on one side). -/
def crossingsOfPair (prev curr : Sample) : List Crossing :=
  boundaries.filterMap fun b =>
    if (prev.y < b.1 ∧ b.1 ≤ curr.y) ∨ (b.1 ≤ prev.y ∧ curr.y < b.1) then
      some ⟨prev.x + (b.1 - prev.y) / (curr.y - prev.y) * (curr.x - prev.x), b.1, b.2⟩
    else none

/-- The unsorted crossing list: the `for i = 1 …` loop over sample pairs. -/
def rawCrossings : List Sample → List Crossing
  | p :: q :: rest => crossingsOfPair p q ++ rawCrossings (q :: rest)
  | _ => []

/-- Stable insertion into a list sorted by `x` (models the stable
`Array.prototype.sort((a, b) => a.x - b.x)`). -/
def insertByX (c : Crossing) : List Crossing → List Crossing
  | [] => [c]
  | d :: ds => if c.x ≤ d.x then c :: d :: ds else d :: insertByX c ds

/-- Stable sort by `x` of the crossing list. -/
def sortByX (l : List Crossing) : List Crossing := l.foldr insertByX []

/-- `findBoundaryCrossings` up to (and excluding) its final `buildSegments`
call: the sorted crossing list `this.boundaryCrossings`. -/
def findBoundaryCrossings (samples : List Sample) : List Crossing :=
  sortByX (rawCrossings samples)

/-- `GraphSlider.getZoneNameForY` (part_001, lines 423-434). -/
def getZoneNameForY (y : ℚ) : String :=
  if y < 96 then "danger-high"
  else if y ≤ 106 then "warning-high"
  else if y < 151 then "safe"
  else if y ≤ 156 then "warning-low"
  else "danger-low"

/-- One segment of `this.segments`. -/
structure ZoneSegment where
  startX : ℚ
  endX : ℚ
  zone : String
deriving DecidableEq, Repr

/-- Zone sampled at the midpoint of a candidate segment, exactly as
`buildSegments` computes it. -/
def zoneAtMid (samples : List Sample) (a b : ℚ) : String :=
  getZoneNameForY (getYForX samples ((a + b) / 2))

/-- The loop body of `buildSegments`: walk the sorted crossings carrying
`lastX`, then append the final segment up to `maxX`. -/
def buildSegmentsFrom (samples : List Sample) (lastX : ℚ) :
    List Crossing → List ZoneSegment
  | [] => [⟨lastX, maxX, zoneAtMid samples lastX maxX⟩]
  | c :: cs => ⟨lastX, c.x, zoneAtMid samples lastX c.x⟩ :: buildSegmentsFrom samples c.x cs

/-- `GraphSlider.buildSegments` (part_001, lines 297-327), fed by
`findBoundaryCrossings`. -/
def buildSegments (samples : List Sample) : List ZoneSegment :=
  buildSegmentsFrom samples minX (findBoundaryCrossings samples)

end GraphSlider

/-! ## Noise source (`SimplexNoise` in blob.js) -/

namespace Blob

/-- The fade curve `t*t*t*(t*(t*6-15)+10)` of `noise2D`. -/
noncomputable def fade (t : ℝ) : ℝ := t * t * t * (t * (t * 6 - 15) + 10)

/-- `lerp(a, b, t) = a + t*(b-a)`. -/
noncomputable def lerp (a b t : ℝ) : ℝ := a + t * (b - a)

/-- `grad(hash, x, y)`: `h = hash & 3` selects one of the corner gradients;
`(h & 1)` negates the first component, `(h & 2)` (i.e. `h ≥ 2`) the second. -/
noncomputable def grad (hash : ℕ) (x y : ℝ) : ℝ :=
  let h := hash % 4
  let u := if h < 2 then x else y
  let v := if h < 2 then y else x
  (if h % 2 = 1 then -u else u) + (if 2 ≤ h then -v else v)

/-- A permutation table.  The constructor builds a Fisher–Yates shuffle `p`
of `0..255` and stores `perm[i] = p[i & 255]` for `i < 512`; the model keeps
the table as a total function, which every lookup of `noise2D` stays inside.
The theorems below hold for every table, hence for every constructed
instance. -/
def PermTable := ℕ → ℕ

/-- The table produced when the random shuffle happens to be the identity
permutation (a legal Fisher–Yates outcome): `perm[i] = i & 255`. -/
def idPerm : PermTable := fun i => i % 256

/-- `SimplexNoise.noise2D` (blob.js, lines 42-69).  `Math.floor(x) & 255`
is `⌊x⌋ mod 256` (JS bitwise-and takes the two's-complement low bits, which
for `& 255` agrees with the nonnegative remainder). -/
noncomputable def noise2D (perm : PermTable) (x y : ℝ) : ℝ :=
  let xi : ℕ := ((⌊x⌋ : ℤ) % 256).toNat
  let yi : ℕ := ((⌊y⌋ : ℤ) % 256).toNat
  let xf : ℝ := x - ⌊x⌋
  let yf : ℝ := y - ⌊y⌋
  let u := fade xf
  let v := fade yf
  let aa := perm (perm xi + yi)
  let ab := perm (perm xi + yi + 1)
  let ba := perm (perm (xi + 1) + yi)
  let bb := perm (perm (xi + 1) + yi + 1)
  lerp (lerp (grad aa xf yf) (grad ba (xf - 1) yf) u)
       (lerp (grad ab xf (yf - 1)) (grad bb (xf - 1) (yf - 1)) u) v

/-! ## Motion model (`GlucoseBlob` in blob.js)

State fields mirror the constructor.  Rendering-only fields (`svg`, `path`,
`wasDragged` and its 100 ms click-suppression timeout, color/scale caches)
are not part of the motion model and are omitted.  Options keep their
default values: `movementSpeed = 0.00015`, `edgeReturnDuration = 600`,
`centerLockEaseDuration = 800`. -/

structure BlobState where
  posX : ℝ
  posY : ℝ
  time : ℝ
  trendAngle : ℝ
  centerLock : Bool
  centerLockEaseOut : Bool
  centerLockEaseStart : ℝ
  oscillationPhaseOffset : ℝ
  isDragging : Bool
  hasMoved : Bool
  dragStartX : ℝ
  dragStartY : ℝ
  dragStartPosX : ℝ
  dragStartPosY : ℝ
  dragEndPos : Option (ℝ × ℝ)
  edgeReturnEasing : Bool
  edgeReturnStart : ℝ
  edgeReturnStartX : ℝ
  edgeReturnStartY : ℝ
  perm : PermTable

/-- Constructor state: position starts at the center, all modes off.
`t0` is the random initial `this.time`, `trend0` the `initialTrend`
option, `perm` the freshly shuffled noise table. -/
noncomputable def init (t0 trend0 : ℝ) (perm : PermTable) : BlobState :=
  { posX := 1/2, posY := 1/2, time := t0, trendAngle := trend0,
    centerLock := false, centerLockEaseOut := false, centerLockEaseStart := 0,
    oscillationPhaseOffset := 0, isDragging := false, hasMoved := false,
    dragStartX := 0, dragStartY := 0, dragStartPosX := 0, dragStartPosY := 0,
    dragEndPos := none, edgeReturnEasing := false, edgeReturnStart := 0,
    edgeReturnStartX := 0, edgeReturnStartY := 0, perm := perm }

/-- The circular clamp used identically in `handleDragMove` and
`updatePosition`: if the point is farther than `r` from the center, pull it
back onto the radius-`r` circle. -/
noncomputable def clampToRadius (r x y : ℝ) : ℝ × ℝ :=
  let dx := x - 1/2
  let dy := y - 1/2
  let dist := Real.sqrt (dx ^ 2 + dy ^ 2)
  if r < dist then (1/2 + dx / dist * r, 1/2 + dy / dist * r) else (x, y)

/-- `GlucoseBlob.handleDragStart` (blob.js, lines 197-215): refused while
center-locked; otherwise records the pointer and current position. -/
noncomputable def handleDragStart (clientX clientY : ℝ) (s : BlobState) : BlobState :=
  if s.centerLock then s
  else
    { s with isDragging := true, hasMoved := false,
             dragStartX := clientX, dragStartY := clientY,
             dragStartPosX := s.posX, dragStartPosY := s.posY }

/-- `GlucoseBlob.handleDragMove` (blob.js, lines 220-259): position from
the pixel delta scaled by the container size, then the 0.48 clamp.
`width`/`height` are the container's `getBoundingClientRect` dimensions. -/
noncomputable def handleDragMove (clientX clientY width height : ℝ) (s : BlobState) :
    BlobState :=
  if s.isDragging then
    let deltaX := clientX - s.dragStartX
    let deltaY := clientY - s.dragStartY
    let moved := if 5 < |deltaX| ∨ 5 < |deltaY| then true else s.hasMoved
    let p := clampToRadius 0.48 (s.dragStartPosX + deltaX / width)
                                (s.dragStartPosY + deltaY / height)
    { s with hasMoved := moved, posX := p.1, posY := p.2 }
  else s

/-- `GlucoseBlob.handleDragEnd` (blob.js, lines 264-302): stop dragging;
when the blob actually moved, restart the oscillation phase, store the new
base, and when released beyond the 0.35 comfortable radius start the edge
return.  (The `wasDragged` flag and its timeout only suppress a click.) -/
noncomputable def handleDragEnd (s : BlobState) : BlobState :=
  if s.isDragging then
    if s.hasMoved then
      let dist := Real.sqrt ((s.posX - 1/2) ^ 2 + (s.posY - 1/2) ^ 2)
      if 0.35 < dist then
        { s with isDragging := false, oscillationPhaseOffset := s.time,
                 dragEndPos := some (s.posX, s.posY),
                 edgeReturnEasing := true, edgeReturnStart := s.time,
                 edgeReturnStartX := s.posX, edgeReturnStartY := s.posY }
      else
        { s with isDragging := false, oscillationPhaseOffset := s.time,
                 dragEndPos := some (s.posX, s.posY) }
    else
      { s with isDragging := false }
  else s

/-- `GlucoseBlob.lockToCenter` (blob.js, lines 550-556). -/
noncomputable def lockToCenter (s : BlobState) : BlobState :=
  { s with centerLock := true, centerLockEaseOut := false, dragEndPos := none }

/-- `GlucoseBlob.unlockFromCenter` (blob.js, lines 561-570). -/
noncomputable def unlockFromCenter (s : BlobState) : BlobState :=
  { s with centerLock := false, centerLockEaseOut := true,
           centerLockEaseStart := s.time, oscillationPhaseOffset := s.time,
           dragEndPos := none }

/-- `GlucoseBlob.setTrendDirection` (blob.js, lines 543-545). -/
noncomputable def setTrendDirection (angle : ℝ) (s : BlobState) : BlobState :=
  { s with trendAngle := angle }

/-- `GlucoseBlob.updatePosition` (blob.js, lines 414-538), the per-tick
position update, called with the already-incremented `time`. -/
noncomputable def updatePosition (time : ℝ) (s : BlobState) : BlobState :=
  if s.isDragging then s
  else if s.centerLock then { s with posX := 1/2, posY := 1/2 }
  else
    let angleRad := (s.trendAngle - 90) * (Real.pi / 180)
    let dirX0 := Real.cos angleRad
    let dirY0 := Real.sin angleRad
    let baseX0 := (s.dragEndPos.map Prod.fst).getD (1/2)
    let baseY0 := (s.dragEndPos.map Prod.snd).getD (1/2)
    let tE := min 1 ((time - s.edgeReturnStart) / 600)
    let easeTE := 1 - (1 - tE) ^ 3
    let edgeDx := s.edgeReturnStartX - 1/2
    let edgeDy := s.edgeReturnStartY - 1/2
    let edgeDist := Real.sqrt (edgeDx ^ 2 + edgeDy ^ 2)
    let clampedBaseX := 1/2 + edgeDx / edgeDist * 0.35
    let clampedBaseY := 1/2 + edgeDy / edgeDist * 0.35
    let baseX := if s.edgeReturnEasing then
        s.edgeReturnStartX + (clampedBaseX - s.edgeReturnStartX) * easeTE else baseX0
    let baseY := if s.edgeReturnEasing then
        s.edgeReturnStartY + (clampedBaseY - s.edgeReturnStartY) * easeTE else baseY0
    let s1 := if s.edgeReturnEasing then
        { s with dragEndPos := some (baseX, baseY),
                 edgeReturnEasing := if (1 : ℝ) ≤ tE then false else true }
      else s
    let baseDx := baseX - 1/2
    let baseDy := baseY - 1/2
    let baseDist := Real.sqrt (baseDx ^ 2 + baseDy ^ 2)
    let reverse := 0.2 < baseDist ∧
      0 < dirX0 * (baseDx / baseDist) + dirY0 * (baseDy / baseDist)
    let dirX := if reverse then -dirX0 else dirX0
    let dirY := if reverse then -dirY0 else dirY0
    let oscillationTime := time - s.oscillationPhaseOffset
    let oscillation := Real.sin (oscillationTime * (0.00015 * 0.8)) * 0.18
    let wobble := noise2D s.perm (time * (0.00015 * 0.5)) 0 * 0.05
    let target := clampToRadius 0.48 (baseX + dirX * oscillation + (-dirY * wobble))
                                     (baseY + dirY * oscillation + dirX * wobble)
    if s.centerLockEaseOut then
      let tC := min 1 ((time - s.centerLockEaseStart) / 800)
      let easeTC := 1 - (1 - tC) ^ 3
      { s1 with posX := 1/2 + (target.1 - 1/2) * easeTC,
                posY := 1/2 + (target.2 - 1/2) * easeTC,
                centerLockEaseOut := if (1 : ℝ) ≤ tC then false else true }
    else
      { s1 with posX := target.1, posY := target.2 }

/-- One frame of `GlucoseBlob.animate`: advance `time` by the fixed 16 ms
step and run `updatePosition`.  (The shape regeneration that precedes
`updatePosition` in `animate` mutates no motion state; its morph intensity
is modelled by `morphIntensity` below.) -/
noncomputable def tick (s : BlobState) : BlobState :=
  updatePosition (s.time + 16) { s with time := s.time + 16 }

/-- The morph-intensity computation at the top of `generateBlobPath`
(blob.js, lines 321-329), as a function of the state and the tick time. -/
noncomputable def morphIntensity (s : BlobState) (time : ℝ) : ℝ :=
  if s.centerLock then 0.1
  else if s.centerLockEaseOut then
    0.1 + min 1 ((time - s.centerLockEaseStart) / 800) * 0.9
  else 1

/-- The morph intensity used by the next `animate` frame: `generateBlobPath`
runs after `time += 16` and before `updatePosition` touches the flags. -/
noncomputable def tickMorph (s : BlobState) : ℝ := morphIntensity s (s.time + 16)

/-- External inputs to the motion model: the drag handlers, the per-frame
tick, the lock/unlock calls and the trend setter. -/
inductive BlobEvent where
  | dragStart (clientX clientY : ℝ)
  | dragMove (clientX clientY width height : ℝ)
  | dragEnd
  | tick
  | lockToCenter
  | unlockFromCenter
  | setTrend (angle : ℝ)

/-- Apply one event to the state. -/
noncomputable def stepEvent (s : BlobState) : BlobEvent → BlobState
  | .dragStart cx cy => handleDragStart cx cy s
  | .dragMove cx cy w h => handleDragMove cx cy w h s
  | .dragEnd => handleDragEnd s
  | .tick => tick s
  | .lockToCenter => lockToCenter s
  | .unlockFromCenter => unlockFromCenter s
  | .setTrend a => setTrendDirection a s

/-- Run a sequence of events. -/
noncomputable def run (s : BlobState) (events : List BlobEvent) : BlobState :=
  events.foldl stepEvent s

/-- Distance of the blob position from the watch center. -/
noncomputable def radiusFromCenter (s : BlobState) : ℝ :=
  Real.sqrt ((s.posX - 1/2) ^ 2 + (s.posY - 1/2) ^ 2)

/-- The geometric part of the motion-model invariant: the position lies in
the disk of radius 0.48 around the center. -/
def PosInv (s : BlobState) : Prop :=
  (s.posX - 1/2) ^ 2 + (s.posY - 1/2) ^ 2 ≤ 0.48 ^ 2

/-- The bookkeeping part of the invariant: while the ease-out from center
lock is active, its start stamp does not lie in the future. -/
def ClockInv (s : BlobState) : Prop :=
  s.centerLockEaseOut = true → s.centerLockEaseStart ≤ s.time

/-- Full inductive invariant for the motion model. -/
def Inv (s : BlobState) : Prop := PosInv s ∧ ClockInv s

end Blob

/-! ## Noise source: bounds and lattice behavior -/

namespace Blob

theorem fade_nonneg {t : ℝ} (h0 : 0 ≤ t) : 0 ≤ fade t := by
  have hcube : 0 ≤ t * t * t := by positivity
  have hquad : 0 ≤ t * (t * 6 - 15) + 10 := by nlinarith [sq_nonneg (4 * t - 5)]
  simpa [fade] using mul_nonneg hcube hquad

theorem fade_le_one {t : ℝ} (h0 : 0 ≤ t) (h1 : t ≤ 1) : fade t ≤ 1 := by
  have h2 : 0 ≤ (1 - t) ^ 3 := pow_nonneg (by linarith) 3
  have h3 : 0 ≤ 6 * t ^ 2 + 3 * t + 1 := by positivity
  have h4 : 0 ≤ (1 - t) ^ 3 * (6 * t ^ 2 + 3 * t + 1) := mul_nonneg h2 h3
  simp only [fade]
  nlinarith [h4]

theorem phi_le_half {s : ℝ} (h0 : 0 ≤ s) (h1 : s ≤ 1) :
    (1 - fade s) * s + fade s * (1 - s) ≤ 1 / 2 := by
  have hq : 0 ≤ 6 * s ^ 4 - 12 * s ^ 3 + 4 * s ^ 2 + 2 * s + 1 := by
    nlinarith [sq_nonneg (s * (s - 1)), mul_nonneg h0 (by linarith : (0:ℝ) ≤ 1 - s)]
  simp only [fade]
  nlinarith [mul_nonneg (sq_nonneg (2 * s - 1)) hq]

theorem grad_le (h : ℕ) (x y : ℝ) : grad h x y ≤ |x| + |y| := by
  simp only [grad]
  split_ifs <;>
    rcases abs_cases x with ⟨hx, hx2⟩ | ⟨hx, hx2⟩ <;>
    rcases abs_cases y with ⟨hy, hy2⟩ | ⟨hy, hy2⟩ <;> linarith

theorem grad_ge (h : ℕ) (x y : ℝ) : -(|x| + |y|) ≤ grad h x y := by
  simp only [grad]
  split_ifs <;>
    rcases abs_cases x with ⟨hx, hx2⟩ | ⟨hx, hx2⟩ <;>
    rcases abs_cases y with ⟨hy, hy2⟩ | ⟨hy, hy2⟩ <;> linarith

theorem lerp_le {a b A B t : ℝ} (ha : a ≤ A) (hb : b ≤ B) (h0 : 0 ≤ t) (h1 : t ≤ 1) :
    lerp a b t ≤ (1 - t) * A + t * B := by
  simp only [lerp]
  nlinarith [mul_nonneg (by linarith : (0:ℝ) ≤ 1 - t) (by linarith : 0 ≤ A - a),
    mul_nonneg h0 (by linarith : 0 ≤ B - b)]

theorem lerp_ge {a b A B t : ℝ} (ha : A ≤ a) (hb : B ≤ b) (h0 : 0 ≤ t) (h1 : t ≤ 1) :
    (1 - t) * A + t * B ≤ lerp a b t := by
  simp only [lerp]
  nlinarith [mul_nonneg (by linarith : (0:ℝ) ≤ 1 - t) (by linarith : 0 ≤ a - A),
    mul_nonneg h0 (by linarith : 0 ≤ b - B)]

/-- The bilinear combination of the four corner gradients is bounded by
`φ(s) + φ(t)` with `φ(s) = (1-fade s)·s + fade s·(1-s) ≤ 1/2`, so the whole
sample lies in `[-1, 1]` — for any corner hashes. -/
theorem noise_core_bounds (a b c d : ℕ) {s t : ℝ}
    (hs0 : 0 ≤ s) (hs1 : s ≤ 1) (ht0 : 0 ≤ t) (ht1 : t ≤ 1) :
    -1 ≤ lerp (lerp (grad a s t) (grad b (s - 1) t) (fade s))
              (lerp (grad c s (t - 1)) (grad d (s - 1) (t - 1)) (fade s)) (fade t) ∧
    lerp (lerp (grad a s t) (grad b (s - 1) t) (fade s))
         (lerp (grad c s (t - 1)) (grad d (s - 1) (t - 1)) (fade s)) (fade t) ≤ 1 := by
  have hu0 : 0 ≤ fade s := fade_nonneg hs0
  have hu1 : fade s ≤ 1 := fade_le_one hs0 hs1
  have hv0 : 0 ≤ fade t := fade_nonneg ht0
  have hv1 : fade t ≤ 1 := fade_le_one ht0 ht1
  have habs_s : |s| = s := abs_of_nonneg hs0
  have habs_s1 : |s - 1| = 1 - s := by rw [abs_of_nonpos (by linarith)]; ring
  have habs_t : |t| = t := abs_of_nonneg ht0
  have habs_t1 : |t - 1| = 1 - t := by rw [abs_of_nonpos (by linarith)]; ring
  have g00u : grad a s t ≤ s + t := by
    have := grad_le a s t; rwa [habs_s, habs_t] at this
  have g10u : grad b (s - 1) t ≤ (1 - s) + t := by
    have := grad_le b (s - 1) t; rwa [habs_s1, habs_t] at this
  have g01u : grad c s (t - 1) ≤ s + (1 - t) := by
    have := grad_le c s (t - 1); rwa [habs_s, habs_t1] at this
  have g11u : grad d (s - 1) (t - 1) ≤ (1 - s) + (1 - t) := by
    have := grad_le d (s - 1) (t - 1); rwa [habs_s1, habs_t1] at this
  have g00l : -(s + t) ≤ grad a s t := by
    have := grad_ge a s t; rwa [habs_s, habs_t] at this
  have g10l : -((1 - s) + t) ≤ grad b (s - 1) t := by
    have := grad_ge b (s - 1) t; rwa [habs_s1, habs_t] at this
  have g01l : -(s + (1 - t)) ≤ grad c s (t - 1) := by
    have := grad_ge c s (t - 1); rwa [habs_s, habs_t1] at this
  have g11l : -((1 - s) + (1 - t)) ≤ grad d (s - 1) (t - 1) := by
    have := grad_ge d (s - 1) (t - 1); rwa [habs_s1, habs_t1] at this
  have hφs : (1 - fade s) * s + fade s * (1 - s) ≤ 1 / 2 := phi_le_half hs0 hs1
  have hφt : (1 - fade t) * t + fade t * (1 - t) ≤ 1 / 2 := phi_le_half ht0 ht1
  constructor
  · have hL1 : (1 - fade s) * (-(s + t)) + fade s * (-((1 - s) + t)) ≤
        lerp (grad a s t) (grad b (s - 1) t) (fade s) := lerp_ge g00l g10l hu0 hu1
    have hL2 : (1 - fade s) * (-(s + (1 - t))) + fade s * (-((1 - s) + (1 - t))) ≤
        lerp (grad c s (t - 1)) (grad d (s - 1) (t - 1)) (fade s) := lerp_ge g01l g11l hu0 hu1
    have hmain := lerp_ge hL1 hL2 hv0 hv1
    nlinarith [hmain, hφs, hφt]
  · have hL1 : lerp (grad a s t) (grad b (s - 1) t) (fade s) ≤
        (1 - fade s) * (s + t) + fade s * ((1 - s) + t) := lerp_le g00u g10u hu0 hu1
    have hL2 : lerp (grad c s (t - 1)) (grad d (s - 1) (t - 1)) (fade s) ≤
        (1 - fade s) * (s + (1 - t)) + fade s * ((1 - s) + (1 - t)) := lerp_le g01u g11u hu0 hu1
    have hmain := lerp_le hL1 hL2 hv0 hv1
    nlinarith [hmain, hφs, hφt]

theorem noise2D_bounds (perm : PermTable) (x y : ℝ) :
    -1 ≤ noise2D perm x y ∧ noise2D perm x y ≤ 1 := by
  have hxf0 : (0:ℝ) ≤ x - ⌊x⌋ := by have := Int.floor_le x; linarith
  have hxf1 : x - (⌊x⌋:ℝ) ≤ 1 := by have := Int.lt_floor_add_one x; linarith
  have hyf0 : (0:ℝ) ≤ y - ⌊y⌋ := by have := Int.floor_le y; linarith
  have hyf1 : y - (⌊y⌋:ℝ) ≤ 1 := by have := Int.lt_floor_add_one y; linarith
  simpa [noise2D] using
    noise_core_bounds _ _ _ _ hxf0 hxf1 hyf0 hyf1

end Blob

namespace Blob

/-- C9: for every constructed noise instance (any permutation table, in
particular any Fisher–Yates shuffle result) and all real `x`, `y`, the
sample `noise2D x y` lies in the closed interval `[-1, 1]`. -/
theorem noise2D_in_unit_interval (perm : PermTable) (x y : ℝ) :
    noise2D perm x y ∈ Set.Icc (-1 : ℝ) 1 := by
  have h := noise2D_bounds perm x y
  exact ⟨h.1, h.2⟩

/-- C10: for every permutation table, `noise2D` vanishes whenever both
arguments are integers: the fractional offsets are `0`, the fade weights
vanish, and the surviving corner gradient is evaluated at `(0, 0)`. -/
theorem noise2D_zero_at_lattice (perm : PermTable) (x y : ℝ)
    (hx : ∃ m : ℤ, x = m) (hy : ∃ n : ℤ, y = n) :
    noise2D perm x y = 0 := by
  obtain ⟨m, rfl⟩ := hx
  obtain ⟨n, rfl⟩ := hy
  have hm : ⌊(m : ℝ)⌋ = m := Int.floor_intCast m
  have hn : ⌊(n : ℝ)⌋ = n := Int.floor_intCast n
  have hgrad : ∀ h : ℕ, grad h 0 0 = 0 := by
    intro h
    simp only [grad]
    split_ifs <;> simp
  simp [noise2D, hm, hn, lerp, fade, hgrad]

/-- Witness for C10 at the concrete instance `idPerm` and the lattice point
`(0, 0)`. -/
theorem noise2D_zero_at_lattice_witness : noise2D idPerm 0 0 = 0 :=
  noise2D_zero_at_lattice idPerm 0 0 ⟨0, by norm_num⟩ ⟨0, by norm_num⟩

end Blob

/-! ## Path-to-value mapping: round trip (C4) -/

namespace GraphSlider

/-- C4: the affine glucose↔pixel mapping round-trips exactly (the model
uses exact rationals, so the equality holds with zero error, in particular
within any floating-point tolerance): `glucoseToY (yToGlucose y) = y` and
`yToGlucose (glucoseToY v) = v`. -/
theorem glucose_y_roundtrip (y v : ℚ) :
    glucoseToY (yToGlucose y) = y ∧ yToGlucose (glucoseToY v) = v := by
  constructor <;>
    simp only [glucoseToY, yToGlucose, upperBoundaryY, glucosePerPixel] <;> ring

end GraphSlider

/-! ## Color zone mapper (C2) -/

namespace GraphSlider

/-- C2 counterexample.  The claim fails on the code in three ways at
concrete inputs: (1) inside the declared 9.5–10 blend band the slider
mapper is NOT strictly monotonic — 9.5 and 9.501 are distinct band values
with identical output (channel rounding collapses them); (2) the mapper is
not continuous across the 4.0–4.5 band: just inside the band (4.499) it is
the unblended warning yellow but at the band's exact upper edge (4.5) it
jumps to the safe green, which is also not the color the in-band
interpolation approaches; (3) the blob mapper's band edge at glucose 10.3
returns a partially blended color, not the adjacent danger zone's
unblended color, while 10.4 is pure danger. -/
theorem getColorForGlucose_not_strictly_monotonic :
    (getColorForGlucose (19/2) = getColorForGlucose (9501/1000) ∧
      (19/2 : ℚ) < 9501/1000 ∧ (9501/1000 : ℚ) < 10) ∧
    (getColorForGlucose (4499/1000) = WARNING ∧ getColorForGlucose (9/2) = SAFE) ∧
    (blobGetColorForGlucose (103/10) ≠ DANGER ∧ blobGetColorForGlucose (104/10) = DANGER) := by
  refine ⟨⟨?_, by norm_num, by norm_num⟩, ⟨?_, ?_⟩, ⟨?_, ?_⟩⟩ <;>
    norm_num [getColorForGlucose, blobGetColorForGlucose, blendColors, jsRound,
      WARNING, DANGER, SAFE, DANGER_LOW, DANGER_HIGH, WARNING_LOW, WARNING_HIGH,
      min_def, RGB.mk.injEq]

/-- C2 amended: within each declared blend band the slider mapper equals
the rounded channel-wise linear interpolation between the warning and
danger colors, with blend fraction strictly monotonic in the glucose value
and each rounded channel (non-strictly) monotonic; the band edges 9.5, 10
and 4 produce the unblended warning/danger colors; the edge 4.5 produces
the unblended safe color of the adjacent zone (although the in-band
interpolation approaches warning there, see the counterexample). -/
theorem getColorForGlucose_band_spec :
    (∀ v : ℚ, 19/2 ≤ v → v ≤ 10 →
        getColorForGlucose v = blendColors WARNING DANGER ((v - 19/2) / (1/2))) ∧
    (∀ v : ℚ, 4 ≤ v → v < 9/2 →
        getColorForGlucose v = blendColors WARNING DANGER ((9/2 - v) / (1/2))) ∧
    getColorForGlucose (19/2) = WARNING ∧
    getColorForGlucose 10 = DANGER ∧
    getColorForGlucose 4 = DANGER ∧
    getColorForGlucose (9/2) = SAFE ∧
    (∀ v w : ℚ, 19/2 ≤ v → v < w → w ≤ 10 →
        (v - 19/2) / (1/2) < (w - 19/2) / (1/2) ∧
        (getColorForGlucose w).g ≤ (getColorForGlucose v).g ∧
        (getColorForGlucose v).b ≤ (getColorForGlucose w).b ∧
        (getColorForGlucose v).r = (getColorForGlucose w).r) := by
  have bandHigh : ∀ v : ℚ, 19/2 ≤ v → v ≤ 10 →
      getColorForGlucose v = blendColors WARNING DANGER ((v - 19/2) / (1/2)) := by
    intro v h1 h2
    rcases eq_or_lt_of_le h2 with h10 | h10
    · subst h10
      norm_num [getColorForGlucose, blendColors, jsRound, WARNING, DANGER, RGB.mk.injEq]
    · have hc1 : ¬(v ≤ 4 ∨ 10 ≤ v) := by push_neg; exact ⟨by linarith, by linarith⟩
      have hc2 : ¬(9/2 ≤ v ∧ v ≤ 9) := by rintro ⟨_, h⟩; linarith
      have hc3 : 9 < v ∧ v < 10 := ⟨by linarith, h10⟩
      simp only [getColorForGlucose, if_neg hc1, if_neg hc2, if_pos hc3, if_pos h1]
  have bandLow : ∀ v : ℚ, 4 ≤ v → v < 9/2 →
      getColorForGlucose v = blendColors WARNING DANGER ((9/2 - v) / (1/2)) := by
    intro v h1 h2
    rcases eq_or_lt_of_le h1 with h4 | h4
    · rw [← h4]
      norm_num [getColorForGlucose, blendColors, jsRound, WARNING, DANGER, RGB.mk.injEq]
    · have hc1 : ¬(v ≤ 4 ∨ 10 ≤ v) := by push_neg; exact ⟨by linarith, by linarith⟩
      have hc2 : ¬(9/2 ≤ v ∧ v ≤ 9) := by rintro ⟨h, _⟩; linarith
      have hc3 : ¬(9 < v ∧ v < 10) := by rintro ⟨h, _⟩; linarith
      have hc4 : 4 < v ∧ v < 9/2 := ⟨h4, h2⟩
      simp only [getColorForGlucose, if_neg hc1, if_neg hc2, if_neg hc3, if_pos hc4]
  refine ⟨bandHigh, bandLow,
    by norm_num [getColorForGlucose, blendColors, jsRound, WARNING, SAFE, DANGER, RGB.mk.injEq],
    by norm_num [getColorForGlucose, blendColors, jsRound, WARNING, SAFE, DANGER, RGB.mk.injEq],
    by norm_num [getColorForGlucose, blendColors, jsRound, WARNING, SAFE, DANGER, RGB.mk.injEq],
    by norm_num [getColorForGlucose, blendColors, jsRound, WARNING, SAFE, DANGER, RGB.mk.injEq], ?_⟩
  intro v w hv hvw hw
  have hv10 : v ≤ 10 := by linarith
  have hw95 : 19/2 ≤ w := by linarith
  have htv : (v - 19/2) / (1/2) = 2 * v - 19 := by ring
  have htw : (w - 19/2) / (1/2) = 2 * w - 19 := by ring
  have hEv := bandHigh v hv hv10
  have hEw := bandHigh w hw95 hw
  refine ⟨by rw [htv, htw]; linarith, ?_, ?_, ?_⟩
  · rw [hEv, hEw]
    simp only [blendColors, WARNING, DANGER, jsRound, htv, htw]
    exact Int.floor_le_floor (by push_cast; linarith)
  · rw [hEv, hEw]
    simp only [blendColors, WARNING, DANGER, jsRound, htv, htw]
    exact Int.floor_le_floor (by push_cast; linarith)
  · rw [hEv, hEw]
    simp only [blendColors, WARNING, DANGER, jsRound, htv, htw]
    norm_num

/-- Witness for the amended C2 theorem at concrete band values. -/
theorem getColorForGlucose_band_spec_witness :
    getColorForGlucose (39/4) = blendColors WARNING DANGER ((39/4 - 19/2) / (1/2)) ∧
    (getColorForGlucose 10).g ≤ (getColorForGlucose (39/4)).g :=
  ⟨getColorForGlucose_band_spec.1 (39/4) (by norm_num) (by norm_num),
   (getColorForGlucose_band_spec.2.2.2.2.2.2 (39/4) 10 (by norm_num) (by norm_num)
     (by norm_num)).2.1⟩

end GraphSlider

/-! ## Curve sampler: value lookup (C7) -/

namespace GraphSlider

theorem bracketLoop_none_of_gt {l : List Sample} {x : ℚ}
    (h : ∀ p ∈ l, p.x < x) : bracketLoop l x = none := by
  induction l with
  | nil => rfl
  | cons p t ih =>
    cases t with
    | nil => rfl
    | cons q t2 =>
      have hq : q.x < x := h q (by simp)
      rw [bracketLoop, if_neg (by rintro ⟨_, h2⟩; linarith)]
      exact ih fun r hr => h r (List.mem_cons_of_mem _ hr)

theorem bracketLoop_none_of_lt {l : List Sample} {x : ℚ}
    (h : ∀ p ∈ l, x < p.x) : bracketLoop l x = none := by
  induction l with
  | nil => rfl
  | cons p t ih =>
    cases t with
    | nil => rfl
    | cons q t2 =>
      have hp : x < p.x := h p (by simp)
      rw [bracketLoop, if_neg (by rintro ⟨h1, _⟩; linarith)]
      exact ih fun r hr => h r (List.mem_cons_of_mem _ hr)

theorem mem_le_getLast {l : List Sample} {g : Sample}
    (hs : StrictSamples l) (hg : l.getLast? = some g) :
    ∀ p ∈ l, p.x ≤ g.x := by
  induction l with
  | nil => simp at hg
  | cons a t ih =>
    cases t with
    | nil =>
      rw [List.getLast?_singleton, Option.some.injEq] at hg
      subst hg
      intro p hp
      rw [List.mem_singleton] at hp
      exact hp ▸ le_refl _
    | cons b t2 =>
      rw [List.getLast?_cons_cons] at hg
      rw [StrictSamples, List.pairwise_cons] at hs
      have ih2 := ih hs.2 hg
      intro p hp
      rcases List.mem_cons.1 hp with rfl | hp2
      · have hb : b.x ≤ g.x := ih2 b (by simp)
        have := hs.1 b (by simp)
        linarith
      · exact ih2 p hp2

theorem head_le_mem {l : List Sample} {f : Sample}
    (hs : StrictSamples l) (hf : l.head? = some f) :
    ∀ p ∈ l, f.x ≤ p.x := by
  cases l with
  | nil => simp at hf
  | cons a t =>
    rw [List.head?_cons, Option.some.injEq] at hf
    subst hf
    rw [StrictSamples, List.pairwise_cons] at hs
    intro p hp
    rcases List.mem_cons.1 hp with rfl | hp2
    · exact le_refl _
    · exact le_of_lt (hs.1 p hp2)

theorem bracketLoop_exists (a b : Sample) (t : List Sample) (g : Sample) (x : ℚ)
    (hs : StrictSamples (a :: b :: t)) (hg : (a :: b :: t).getLast? = some g)
    (h1 : a.x ≤ x) (h2 : x ≤ g.x) :
    ∃ p q, bracketLoop (a :: b :: t) x = some (p, q) ∧ p.x ≤ x ∧ x ≤ q.x ∧ p.x < q.x := by
  induction t generalizing a b with
  | nil =>
    rw [List.getLast?_cons_cons, List.getLast?_singleton, Option.some.injEq] at hg
    have hab : a.x < b.x := by
      rw [StrictSamples, List.pairwise_cons] at hs
      exact hs.1 b (by simp)
    subst hg
    exact ⟨a, b, by rw [bracketLoop, if_pos ⟨h1, h2⟩], h1, h2, hab⟩
  | cons c t3 ih =>
    have hab : a.x < b.x := by
      rw [StrictSamples, List.pairwise_cons] at hs
      exact hs.1 b (by simp)
    by_cases hc : a.x ≤ x ∧ x ≤ b.x
    · exact ⟨a, b, by rw [bracketLoop, if_pos hc], hc.1, hc.2, hab⟩
    · have hbx : b.x < x := by
        rcases not_and_or.1 hc with h | h
        · exact absurd h1 h
        · exact lt_of_not_le h
      rw [List.getLast?_cons_cons] at hg
      have hs2 : StrictSamples (b :: c :: t3) := by
        rw [StrictSamples, List.pairwise_cons] at hs
        exact hs.2
      obtain ⟨p, q, hbr, hle, hge, hlt⟩ := ih b c hs2 hg (le_of_lt hbx)
      exact ⟨p, q, by rw [bracketLoop, if_neg hc]; exact hbr, hle, hge, hlt⟩

theorem bracketLoop_getLast (a b : Sample) (t : List Sample) (g : Sample)
    (hs : StrictSamples (a :: b :: t)) (hg : (a :: b :: t).getLast? = some g) :
    ∃ p, bracketLoop (a :: b :: t) g.x = some (p, g) ∧ p.x < g.x := by
  induction t generalizing a b with
  | nil =>
    rw [List.getLast?_cons_cons, List.getLast?_singleton, Option.some.injEq] at hg
    have hab : a.x < b.x := by
      rw [StrictSamples, List.pairwise_cons] at hs
      exact hs.1 b (by simp)
    subst hg
    exact ⟨a, by rw [bracketLoop, if_pos ⟨le_of_lt hab, le_refl _⟩], hab⟩
  | cons c t3 ih =>
    rw [List.getLast?_cons_cons] at hg
    have hs2 : StrictSamples (b :: c :: t3) := by
      rw [StrictSamples, List.pairwise_cons] at hs
      exact hs.2
    have hg_mem : g ∈ c :: t3 := by
      rw [List.getLast?_cons_cons] at hg
      exact List.mem_of_mem_getLast? (by rw [hg]; simp)
    have hbg : b.x < g.x := by
      rw [StrictSamples, List.pairwise_cons] at hs2
      exact hs2.1 g hg_mem
    obtain ⟨p, hbr, hpg⟩ := ih b c hs2 hg
    refine ⟨p, ?_, hpg⟩
    rw [bracketLoop, if_neg (by rintro ⟨_, h2⟩; linarith)]
    exact hbr

/-- C7 counterexample: beyond the sampled domain `getYForX` extrapolates
along the chord between the overall first and last samples instead of
returning the boundary sample's y.  With samples `(0,0)` and `(1,1)`,
querying `x = 2` yields `2`, not the boundary value `1`, and querying
`x = -1` yields `-1`, not `0`. -/
theorem getYForX_extrapolates_beyond_domain :
    getYForX [⟨0, 0⟩, ⟨1, 1⟩] 2 = 2 ∧ (2 : ℚ) ≠ 1 ∧
    getYForX [⟨0, 0⟩, ⟨1, 1⟩] (-1) = -1 ∧ (-1 : ℚ) ≠ 0 := by
  refine ⟨?_, by norm_num, ?_, by norm_num⟩ <;>
    · norm_num [getYForX, bracketLoop]

/-- C7 amended: for a strictly sorted sample table, `getYForX` at a query
inside the sampled domain linearly interpolates between the two bracketing
samples found by the scan; at exactly the domain extremes it returns the
boundary sample's y; but strictly outside the domain it linearly
extrapolates along the chord from the overall first to the overall last
sample (their initial values in the JS loop), rather than clamping. -/
theorem getYForX_spec (samples : List Sample) (f g : Sample) (x : ℚ)
    (hs : StrictSamples samples)
    (hf : samples.head? = some f) (hg : samples.getLast? = some g) :
    getYForX samples f.x = f.y ∧
    getYForX samples g.x = g.y ∧
    (2 ≤ samples.length → f.x ≤ x → x ≤ g.x →
      ∃ p q, bracketLoop samples x = some (p, q) ∧ p.x ≤ x ∧ x ≤ q.x ∧
        getYForX samples x = p.y + (x - p.x) / (q.x - p.x) * (q.y - p.y)) ∧
    (g.x < x → f.x < g.x →
      getYForX samples x = f.y + (x - f.x) / (g.x - f.x) * (g.y - f.y)) ∧
    (x < f.x → f.x < g.x →
      getYForX samples x = f.y + (x - f.x) / (g.x - f.x) * (g.y - f.y)) := by
  have hchord : ∀ z : ℚ, bracketLoop samples z = none → f.x < g.x →
      getYForX samples z = f.y + (z - f.x) / (g.x - f.x) * (g.y - f.y) := by
    intro z hnone hfg
    rw [getYForX, hf, hg, hnone]
    simp only [Option.getD_some, Option.getD_none]
    rw [if_neg (by exact fun h => absurd h (ne_of_gt hfg))]
  refine ⟨?_, ?_, ?_, ?_, ?_⟩
  · -- query at the first sample's x
    cases samples with
    | nil => simp at hf
    | cons a t =>
      rw [List.head?_cons, Option.some.injEq] at hf
      cases t with
      | nil =>
        rw [List.getLast?_singleton, Option.some.injEq] at hg
        subst hf
        rw [getYForX]
        simp [bracketLoop]
      | cons b t2 =>
        subst hf
        have hab : a.x < b.x := by
          rw [StrictSamples, List.pairwise_cons] at hs
          exact hs.1 b (by simp)
        have hbr : bracketLoop (a :: b :: t2) a.x = some (a, b) := by
          rw [bracketLoop, if_pos ⟨le_refl _, le_of_lt hab⟩]
        rw [getYForX, hbr]
        simp only [Option.getD_some]
        rw [if_neg (by exact fun h => absurd h (ne_of_gt hab))]
        simp
  · -- query at the last sample's x
    cases samples with
    | nil => simp at hf
    | cons a t =>
      cases t with
      | nil =>
        rw [List.head?_cons, Option.some.injEq] at hf
        rw [List.getLast?_singleton, Option.some.injEq] at hg
        subst hf; subst hg
        rw [getYForX]
        simp [bracketLoop]
      | cons b t2 =>
        obtain ⟨p, hbr, hpg⟩ := bracketLoop_getLast a b t2 g hs hg
        rw [getYForX, hbr]
        simp only [Option.getD_some]
        rw [if_neg (by exact fun h => absurd h (ne_of_gt hpg))]
        rw [div_self (sub_ne_zero.2 (ne_of_gt hpg))]
        ring
  · -- query inside the sampled domain
    intro hlen h1 h2
    cases samples with
    | nil => simp at hf
    | cons a t =>
      cases t with
      | nil => simp at hlen
      | cons b t2 =>
        rw [List.head?_cons, Option.some.injEq] at hf
        subst hf
        obtain ⟨p, q, hbr, hle, hge, hlt⟩ :=
          bracketLoop_exists a b t2 g x hs hg h1 h2
        refine ⟨p, q, hbr, hle, hge, ?_⟩
        rw [getYForX, hbr]
        simp only [Option.getD_some]
        rw [if_neg (by exact fun h => absurd h (ne_of_gt hlt))]
  · -- query beyond the last sample: chord extrapolation
    intro hgx hfg
    refine hchord x (bracketLoop_none_of_gt fun p hp => ?_) hfg
    have := mem_le_getLast hs hg p hp
    linarith
  · -- query before the first sample: chord extrapolation
    intro hfx hfg
    refine hchord x (bracketLoop_none_of_lt fun p hp => ?_) hfg
    have := head_le_mem hs hf p hp
    linarith

/-- Witness for the amended C7 theorem on a concrete two-sample table. -/
theorem getYForX_spec_witness :
    getYForX [⟨0, 0⟩, ⟨4, 2⟩] 0 = 0 ∧
    getYForX [⟨0, 0⟩, ⟨4, 2⟩] 4 = 2 ∧
    getYForX [⟨0, 0⟩, ⟨4, 2⟩] 5 = 0 + (5 - 0) / (4 - 0) * (2 - 0) := by
  have h := getYForX_spec [⟨0, 0⟩, ⟨4, 2⟩] ⟨0, 0⟩ ⟨4, 2⟩ 5
    (by rw [StrictSamples]; norm_num) (by simp) (by simp)
  exact ⟨h.1, h.2.1, h.2.2.2.1 (by norm_num) (by norm_num)⟩

end GraphSlider

/-! ## Zone segmenter (C3) -/

namespace GraphSlider

theorem mem_insertByX {c d : Crossing} {l : List Crossing} :
    d ∈ insertByX c l ↔ d = c ∨ d ∈ l := by
  induction l with
  | nil => simp [insertByX]
  | cons e es ih =>
    rw [insertByX]
    split_ifs
    · simp [ih]
    · simp [ih]; tauto

theorem mem_sortByX {d : Crossing} {l : List Crossing} :
    d ∈ sortByX l ↔ d ∈ l := by
  induction l with
  | nil => simp [sortByX]
  | cons e es ih =>
    rw [sortByX, List.foldr_cons]
    rw [show List.foldr insertByX [] es = sortByX es from rfl] at *
    rw [mem_insertByX, ih]
    simp

theorem insertByX_pairwise {c : Crossing} {l : List Crossing}
    (h : l.Pairwise fun u v => u.x ≤ v.x) :
    (insertByX c l).Pairwise fun u v => u.x ≤ v.x := by
  induction l with
  | nil => simp [insertByX]
  | cons e es ih =>
    rw [List.pairwise_cons] at h
    rw [insertByX]
    split_ifs with hc
    · rw [List.pairwise_cons]
      refine ⟨?_, List.pairwise_cons.2 h⟩
      intro v hv
      rcases List.mem_cons.1 hv with rfl | hv2
      · exact hc
      · exact le_trans hc (h.1 v hv2)
    · rw [List.pairwise_cons]
      refine ⟨?_, ih h.2⟩
      intro v hv
      rcases mem_insertByX.1 hv with rfl | hv2
      · exact le_of_lt (lt_of_not_le hc)
      · exact h.1 v hv2

theorem sortByX_pairwise (l : List Crossing) :
    (sortByX l).Pairwise fun u v => u.x ≤ v.x := by
  induction l with
  | nil => simp [sortByX]
  | cons e es ih => exact insertByX_pairwise ih

theorem crossingsOfPair_bounds {p q : Sample}
    (hp1 : minX ≤ p.x) (hp2 : p.x ≤ maxX) (hq1 : minX ≤ q.x) (hq2 : q.x ≤ maxX) :
    ∀ c ∈ crossingsOfPair p q, minX ≤ c.x ∧ c.x ≤ maxX := by
  intro c hc
  rw [crossingsOfPair, List.mem_filterMap] at hc
  obtain ⟨b, _, hb⟩ := hc
  by_cases hcond : (p.y < b.1 ∧ b.1 ≤ q.y) ∨ (b.1 ≤ p.y ∧ q.y < b.1)
  · rw [if_pos hcond, Option.some.injEq] at hb
    subst hb
    set t : ℚ := (b.1 - p.y) / (q.y - p.y) with ht
    have ht0 : 0 ≤ t := by
      rcases hcond with ⟨h1, h2⟩ | ⟨h1, h2⟩
      · exact div_nonneg (by linarith) (by linarith)
      · exact div_nonneg_iff.2 (Or.inr ⟨by linarith, by linarith⟩)
    have ht1 : t ≤ 1 := by
      rw [ht, div_le_one_iff]
      rcases hcond with ⟨h1, h2⟩ | ⟨h1, h2⟩
      · exact Or.inl ⟨by linarith, by linarith⟩
      · exact Or.inr (Or.inr ⟨by linarith, by linarith⟩)
    simp only [minX, maxX] at *
    constructor
    · nlinarith [mul_nonneg (by linarith : (0:ℚ) ≤ 1 - t) (by linarith : 0 ≤ p.x),
        mul_nonneg ht0 (by linarith : 0 ≤ q.x)]
    · nlinarith [mul_nonneg (by linarith : (0:ℚ) ≤ 1 - t) (by linarith : 0 ≤ 206 - p.x),
        mul_nonneg ht0 (by linarith : 0 ≤ 206 - q.x)]
  · rw [if_neg hcond] at hb
    exact absurd hb (by simp)

theorem rawCrossings_bounds {samples : List Sample}
    (hbnd : ∀ p ∈ samples, minX ≤ p.x ∧ p.x ≤ maxX) :
    ∀ c ∈ rawCrossings samples, minX ≤ c.x ∧ c.x ≤ maxX := by
  induction samples with
  | nil => simp [rawCrossings]
  | cons p t ih =>
    cases t with
    | nil => simp [rawCrossings]
    | cons q t2 =>
      intro c hc
      rw [rawCrossings, List.mem_append] at hc
      rcases hc with hc | hc
      · have hp := hbnd p (by simp)
        have hq := hbnd q (by simp)
        exact crossingsOfPair_bounds hp.1 hp.2 hq.1 hq.2 c hc
      · exact ih (fun r hr => hbnd r (List.mem_cons_of_mem _ hr)) c hc

theorem findBoundaryCrossings_pairwise (samples : List Sample) :
    (findBoundaryCrossings samples).Pairwise fun u v => u.x ≤ v.x :=
  sortByX_pairwise _

theorem findBoundaryCrossings_bounds {samples : List Sample}
    (hbnd : ∀ p ∈ samples, minX ≤ p.x ∧ p.x ≤ maxX) :
    ∀ c ∈ findBoundaryCrossings samples, minX ≤ c.x ∧ c.x ≤ maxX := by
  intro c hc
  exact rawCrossings_bounds hbnd c (mem_sortByX.1 hc)

theorem buildSegmentsFrom_ne_nil (samples : List Sample) (a : ℚ) (cs : List Crossing) :
    buildSegmentsFrom samples a cs ≠ [] := by
  cases cs <;> simp [buildSegmentsFrom]

theorem buildSegmentsFrom_head (samples : List Sample) (a : ℚ) (cs : List Crossing) :
    (buildSegmentsFrom samples a cs).head?.map ZoneSegment.startX = some a := by
  cases cs <;> simp [buildSegmentsFrom]

theorem buildSegmentsFrom_last (samples : List Sample) (a : ℚ) (cs : List Crossing) :
    (buildSegmentsFrom samples a cs).getLast?.map ZoneSegment.endX = some maxX := by
  induction cs generalizing a with
  | nil => simp [buildSegmentsFrom]
  | cons c cs ih =>
    rw [buildSegmentsFrom]
    have htail := buildSegmentsFrom_ne_nil samples c.x cs
    cases hcs : buildSegmentsFrom samples c.x cs with
    | nil => exact absurd hcs htail
    | cons s rest =>
      rw [List.getLast?_cons_cons]
      have := ih c.x
      rwa [hcs] at this

theorem buildSegmentsFrom_chain (samples : List Sample) (a : ℚ) (cs : List Crossing) :
    List.Chain' (fun s t => s.endX = t.startX) (buildSegmentsFrom samples a cs) := by
  induction cs generalizing a with
  | nil => simp [buildSegmentsFrom]
  | cons c cs ih =>
    rw [buildSegmentsFrom, List.chain'_cons']
    refine ⟨?_, ih c.x⟩
    intro s2 hs2
    have hhead := buildSegmentsFrom_head samples c.x cs
    cases hh : (buildSegmentsFrom samples c.x cs).head? with
    | none => rw [hh] at hs2; simp at hs2
    | some s3 =>
      rw [hh] at hs2 hhead
      simp only [Option.map_some', Option.some.injEq] at hhead
      simp only [Option.mem_def, Option.some.injEq] at hs2
      subst hs2
      exact hhead.symm

theorem buildSegmentsFrom_zone (samples : List Sample) (a : ℚ) (cs : List Crossing) :
    ∀ seg ∈ buildSegmentsFrom samples a cs,
      seg.zone = zoneAtMid samples seg.startX seg.endX := by
  induction cs generalizing a with
  | nil =>
    intro seg hseg
    rw [buildSegmentsFrom, List.mem_singleton] at hseg
    subst hseg
    rfl
  | cons c cs ih =>
    intro seg hseg
    rw [buildSegmentsFrom, List.mem_cons] at hseg
    rcases hseg with rfl | hseg
    · rfl
    · exact ih c.x seg hseg

theorem buildSegmentsFrom_mono (samples : List Sample) (a : ℚ) (cs : List Crossing)
    (h0 : a ≤ maxX) (hfirst : ∀ c ∈ cs, a ≤ c.x)
    (hpair : cs.Pairwise fun u v => u.x ≤ v.x) (hmax : ∀ c ∈ cs, c.x ≤ maxX) :
    ∀ seg ∈ buildSegmentsFrom samples a cs, seg.startX ≤ seg.endX := by
  induction cs generalizing a with
  | nil =>
    intro seg hseg
    rw [buildSegmentsFrom, List.mem_singleton] at hseg
    subst hseg
    exact h0
  | cons c cs ih =>
    intro seg hseg
    rw [buildSegmentsFrom, List.mem_cons] at hseg
    rw [List.pairwise_cons] at hpair
    rcases hseg with rfl | hseg
    · exact hfirst c (by simp)
    · exact ih c.x (hmax c (by simp)) (fun d hd => hpair.1 d hd) hpair.2
        (fun d hd => hmax d (List.mem_cons_of_mem _ hd)) seg hseg

/-- C3: for every sampled curve whose abscissae lie in `[minX, maxX]`, the
segments produced by `findBoundaryCrossings` followed by `buildSegments`
are contiguous and gapless across `[minX, maxX]`: the list is nonempty, the
first segment starts at `minX`, the last ends at `maxX`, each segment's
`startX` equals the previous segment's `endX` (no gaps), each segment is
forward-oriented (no overlaps), and every segment's zone is the zone-lookup
result for the curve's y value at the segment's midpoint x. -/
theorem buildSegments_contiguous (samples : List Sample)
    (hbnd : ∀ p ∈ samples, minX ≤ p.x ∧ p.x ≤ maxX) :
    buildSegments samples ≠ [] ∧
    (buildSegments samples).head?.map ZoneSegment.startX = some minX ∧
    (buildSegments samples).getLast?.map ZoneSegment.endX = some maxX ∧
    List.Chain' (fun s t => s.endX = t.startX) (buildSegments samples) ∧
    (∀ seg ∈ buildSegments samples, seg.startX ≤ seg.endX) ∧
    (∀ seg ∈ buildSegments samples, seg.zone =
      getZoneNameForY (getYForX samples ((seg.startX + seg.endX) / 2))) := by
  have hcb := findBoundaryCrossings_bounds hbnd
  refine ⟨buildSegmentsFrom_ne_nil _ _ _, buildSegmentsFrom_head _ _ _,
    buildSegmentsFrom_last _ _ _, buildSegmentsFrom_chain _ _ _, ?_, ?_⟩
  · exact buildSegmentsFrom_mono samples minX (findBoundaryCrossings samples)
      (by rw [minX, maxX]; norm_num)
      (fun c hc => (hcb c hc).1)
      (findBoundaryCrossings_pairwise samples)
      (fun c hc => (hcb c hc).2)
  · exact buildSegmentsFrom_zone _ _ _

/-- Witness for C3 on a concrete three-sample curve crossing two zone
boundaries. -/
theorem buildSegments_contiguous_witness :
    buildSegments [⟨0, 130⟩, ⟨100, 100⟩, ⟨206, 160⟩] ≠ [] ∧
    (buildSegments [⟨0, 130⟩, ⟨100, 100⟩, ⟨206, 160⟩]).head?.map
      ZoneSegment.startX = some minX ∧
    (buildSegments [⟨0, 130⟩, ⟨100, 100⟩, ⟨206, 160⟩]).getLast?.map
      ZoneSegment.endX = some maxX := by
  have h := buildSegments_contiguous [⟨0, 130⟩, ⟨100, 100⟩, ⟨206, 160⟩]
    (by
      intro p hp
      simp only [List.mem_cons, List.not_mem_nil, or_false] at hp
      rcases hp with rfl | rfl | rfl <;>
        exact ⟨by norm_num [minX], by norm_num [maxX]⟩)
  exact ⟨h.1, h.2.1, h.2.2.1⟩

end GraphSlider

/-! ## Motion model: geometric helpers -/

namespace Blob

theorem sqrt_le_of_sq_le {a r : ℝ} (hr : 0 ≤ r) (h : a ≤ r ^ 2) :
    Real.sqrt a ≤ r := by
  calc Real.sqrt a ≤ Real.sqrt (r ^ 2) := Real.sqrt_le_sqrt h
  _ = r := Real.sqrt_sq hr

theorem sq_le_of_sqrt_le {a r : ℝ} (ha : 0 ≤ a) (h : Real.sqrt a ≤ r) :
    a ≤ r ^ 2 := by
  calc a = Real.sqrt a ^ 2 := (Real.sq_sqrt ha).symm
  _ ≤ r ^ 2 := by
      have h0 : 0 ≤ Real.sqrt a := Real.sqrt_nonneg a
      nlinarith

/-- After the circular clamp the squared distance from center is at most
`r²` — in the clamped case by construction, otherwise because the original
distance already was within `r`. -/
theorem clampToRadius_bound (r x y : ℝ) (hr : 0 < r) :
    ((clampToRadius r x y).1 - 1/2) ^ 2 + ((clampToRadius r x y).2 - 1/2) ^ 2 ≤ r ^ 2 := by
  rw [clampToRadius]
  by_cases hc : r < Real.sqrt ((x - 1/2) ^ 2 + (y - 1/2) ^ 2)
  · rw [if_pos hc]
    have hS : (0:ℝ) ≤ (x - 1/2) ^ 2 + (y - 1/2) ^ 2 := by positivity
    have hd : 0 < Real.sqrt ((x - 1/2) ^ 2 + (y - 1/2) ^ 2) := lt_trans hr hc
    have hkey : (1/2 + (x - 1/2) / Real.sqrt ((x - 1/2) ^ 2 + (y - 1/2) ^ 2) * r - 1/2) ^ 2 +
        (1/2 + (y - 1/2) / Real.sqrt ((x - 1/2) ^ 2 + (y - 1/2) ^ 2) * r - 1/2) ^ 2 =
        ((x - 1/2) ^ 2 + (y - 1/2) ^ 2) /
          Real.sqrt ((x - 1/2) ^ 2 + (y - 1/2) ^ 2) ^ 2 * r ^ 2 := by
      ring
    have hSpos : (0:ℝ) < (x - 1/2) ^ 2 + (y - 1/2) ^ 2 := Real.sqrt_pos.mp hd
    simp only
    rw [hkey, Real.sq_sqrt hS, div_self (ne_of_gt hSpos), one_mul]
  · rw [if_neg hc]
    push_neg at hc
    exact sq_le_of_sqrt_le (by positivity) hc

/-- A point scaled onto the radius-`r` circle is at distance exactly `r`
from the center, provided the scaling direction is nonzero. -/
theorem scaled_point_radius {dx dy r : ℝ} (hr : 0 ≤ r)
    (h : 0 < Real.sqrt (dx ^ 2 + dy ^ 2)) :
    Real.sqrt ((1/2 + dx / Real.sqrt (dx ^ 2 + dy ^ 2) * r - 1/2) ^ 2 +
      (1/2 + dy / Real.sqrt (dx ^ 2 + dy ^ 2) * r - 1/2) ^ 2) = r := by
  have hS : (0:ℝ) ≤ dx ^ 2 + dy ^ 2 := by positivity
  have hkey : (1/2 + dx / Real.sqrt (dx ^ 2 + dy ^ 2) * r - 1/2) ^ 2 +
      (1/2 + dy / Real.sqrt (dx ^ 2 + dy ^ 2) * r - 1/2) ^ 2 =
      (dx ^ 2 + dy ^ 2) / Real.sqrt (dx ^ 2 + dy ^ 2) ^ 2 * r ^ 2 := by ring
  rw [hkey, Real.sq_sqrt hS, div_self ?_, one_mul, Real.sqrt_sq hr]
  intro h0
  rw [h0, Real.sqrt_zero] at h
  exact lt_irrefl 0 h

end Blob

namespace Blob

theorem ease_factor_nonneg {u : ℝ} (hu : 0 ≤ u) : 0 ≤ 1 - (1 - min 1 u) ^ 3 := by
  have ht0 : 0 ≤ min 1 u := le_min (by norm_num) hu
  have ht1 : min 1 u ≤ 1 := min_le_left 1 u
  nlinarith [pow_le_one₀ (by linarith : (0:ℝ) ≤ 1 - min 1 u) (by linarith : 1 - min 1 u ≤ 1) (n := 3)]

theorem ease_factor_le_one {u : ℝ} (_hu : 0 ≤ u) : 1 - (1 - min 1 u) ^ 3 ≤ 1 := by
  have ht1 : min 1 u ≤ 1 := min_le_left 1 u
  nlinarith [pow_nonneg (by linarith : (0:ℝ) ≤ 1 - min 1 u) 3]

theorem ease_pos_bound {tx ty e r : ℝ}
    (h : (tx - 1/2) ^ 2 + (ty - 1/2) ^ 2 ≤ r ^ 2) (he0 : 0 ≤ e) (he1 : e ≤ 1) :
    (1/2 + (tx - 1/2) * e - 1/2) ^ 2 + (1/2 + (ty - 1/2) * e - 1/2) ^ 2 ≤ r ^ 2 := by
  have h1 : (1/2 + (tx - 1/2) * e - 1/2) ^ 2 + (1/2 + (ty - 1/2) * e - 1/2) ^ 2 =
      e ^ 2 * ((tx - 1/2) ^ 2 + (ty - 1/2) ^ 2) := by ring
  rw [h1]
  have he2 : e ^ 2 ≤ 1 := by nlinarith
  have hS : 0 ≤ (tx - 1/2) ^ 2 + (ty - 1/2) ^ 2 := by positivity
  nlinarith

/-- Core clamp fact: whatever the free-motion target is, `updatePosition`
leaves the position inside the 0.48 disk, provided the ease-out clock is
not in the future. -/
theorem updatePosition_posInv (time : ℝ) (s : BlobState) (hP : PosInv s)
    (hC : s.centerLockEaseOut = true → s.centerLockEaseStart ≤ time) :
    PosInv (updatePosition time s) := by
  rw [updatePosition]
  by_cases hd : s.isDragging = true
  · rw [if_pos hd]; exact hP
  · rw [if_neg hd]
    by_cases hl : s.centerLock = true
    · rw [if_pos hl]
      unfold PosInv
      norm_num
    · rw [if_neg hl]
      dsimp only
      by_cases he : s.centerLockEaseOut = true
      · rw [if_pos he]
        unfold PosInv
        dsimp only
        refine ease_pos_bound (clampToRadius_bound _ _ _ (by norm_num)) ?_ ?_
        · exact ease_factor_nonneg (div_nonneg (by linarith [hC he]) (by norm_num))
        · exact ease_factor_le_one (div_nonneg (by linarith [hC he]) (by norm_num))
      · rw [if_neg he]
        unfold PosInv
        dsimp only
        exact clampToRadius_bound _ _ _ (by norm_num)

end Blob

namespace Blob

/-- `updatePosition` never touches the clock fields, and only ever turns
`centerLockEaseOut` off, never on. -/
theorem updatePosition_fields (time : ℝ) (s : BlobState) :
    (updatePosition time s).time = s.time ∧
    (updatePosition time s).centerLockEaseStart = s.centerLockEaseStart ∧
    ((updatePosition time s).centerLockEaseOut = true → s.centerLockEaseOut = true) := by
  cases hd : s.isDragging with
  | true => rw [updatePosition, if_pos hd]; exact ⟨rfl, rfl, fun h => h⟩
  | false =>
    cases hl : s.centerLock with
    | true =>
      rw [updatePosition, if_neg (by rw [hd]; exact Bool.false_ne_true), if_pos hl]
      exact ⟨rfl, rfl, fun h => h⟩
    | false =>
      cases he : s.centerLockEaseOut with
      | true =>
        refine ⟨?_, ?_, fun _ => rfl⟩ <;>
          · cases hr : s.edgeReturnEasing <;> simp [updatePosition, hd, hl, he, hr]
      | false =>
        refine ⟨?_, ?_, ?_⟩
        · cases hr : s.edgeReturnEasing <;> simp [updatePosition, hd, hl, he, hr]
        · cases hr : s.edgeReturnEasing <;> simp [updatePosition, hd, hl, he, hr]
        · cases hr : s.edgeReturnEasing <;> simp [updatePosition, hd, hl, he, hr]

theorem tick_inv (s : BlobState) (h : Inv s) : Inv (tick s) := by
  obtain ⟨hP, hC⟩ := h
  rw [tick]
  set s2 : BlobState := { s with time := s.time + 16 } with hs2
  have hP2 : PosInv s2 := hP
  have hC2 : s2.centerLockEaseOut = true → s2.centerLockEaseStart ≤ s.time + 16 := by
    intro h2
    have := hC h2
    simp only [hs2] at *
    linarith
  have hfields := updatePosition_fields (s.time + 16) s2
  refine ⟨updatePosition_posInv _ _ hP2 hC2, ?_⟩
  intro h2
  rw [hfields.1, hfields.2.1]
  exact hC2 (hfields.2.2 h2)

theorem handleDragStart_inv (cx cy : ℝ) (s : BlobState) (h : Inv s) :
    Inv (handleDragStart cx cy s) := by
  rw [handleDragStart]
  by_cases hl : s.centerLock = true
  · rw [if_pos hl]; exact h
  · rw [if_neg hl]; exact h

theorem handleDragMove_inv (cx cy w ht : ℝ) (s : BlobState) (h : Inv s) :
    Inv (handleDragMove cx cy w ht s) := by
  rw [handleDragMove]
  by_cases hd : s.isDragging = true
  · rw [if_pos hd]
    dsimp only
    exact ⟨clampToRadius_bound _ _ _ (by norm_num), h.2⟩
  · rw [if_neg hd]; exact h

theorem handleDragEnd_inv (s : BlobState) (h : Inv s) : Inv (handleDragEnd s) := by
  rw [handleDragEnd]
  by_cases hd : s.isDragging = true
  · rw [if_pos hd]
    by_cases hm : s.hasMoved = true
    · rw [if_pos hm]
      dsimp only
      by_cases hr : 0.35 < Real.sqrt ((s.posX - 1/2) ^ 2 + (s.posY - 1/2) ^ 2)
      · rw [if_pos hr]; exact h
      · rw [if_neg hr]; exact h
    · rw [if_neg hm]; exact h
  · rw [if_neg hd]; exact h

theorem lockToCenter_inv (s : BlobState) (h : Inv s) : Inv (lockToCenter s) := by
  refine ⟨h.1, ?_⟩
  intro h2
  simp [lockToCenter] at h2

theorem unlockFromCenter_inv (s : BlobState) (h : Inv s) : Inv (unlockFromCenter s) := by
  exact ⟨h.1, fun _ => le_refl _⟩

theorem setTrendDirection_inv (a : ℝ) (s : BlobState) (h : Inv s) :
    Inv (setTrendDirection a s) := h

theorem stepEvent_inv (s : BlobState) (e : BlobEvent) (h : Inv s) : Inv (stepEvent s e) := by
  cases e with
  | dragStart cx cy => exact handleDragStart_inv cx cy s h
  | dragMove cx cy w ht => exact handleDragMove_inv cx cy w ht s h
  | dragEnd => exact handleDragEnd_inv s h
  | tick => exact tick_inv s h
  | lockToCenter => exact lockToCenter_inv s h
  | unlockFromCenter => exact unlockFromCenter_inv s h
  | setTrend a => exact setTrendDirection_inv a s h

theorem run_inv (s : BlobState) (events : List BlobEvent) (h : Inv s) :
    Inv (run s events) := by
  induction events generalizing s with
  | nil => exact h
  | cons e es ih => exact ih (stepEvent s e) (stepEvent_inv s e h)

theorem init_inv (t0 trend0 : ℝ) (perm : PermTable) : Inv (init t0 trend0 perm) := by
  constructor
  · unfold PosInv init
    norm_num
  · intro h2
    simp [init] at h2

/-- C1: for every initial state and every sequence of animation ticks and
drag/lock events — including drag moves whose pointer delta targets a point
far outside the watch disk — the blob position stays within distance 0.48
of the center.  The clamp is applied inside `handleDragMove` itself, not
only at tick time, and every prefix of an event sequence is itself an event
sequence, so the bound holds after each individual event. -/
theorem blob_position_within_max_radius (t0 trend0 : ℝ) (perm : PermTable)
    (events : List BlobEvent) :
    radiusFromCenter (run (init t0 trend0 perm) events) ≤ 0.48 := by
  have hinv := run_inv (init t0 trend0 perm) events (init_inv t0 trend0 perm)
  exact sqrt_le_of_sq_le (by norm_num) hinv.1

end Blob

namespace Blob

/-- C6 counterexample.  `lockToCenter` does not clear `isDragging`, and
`handleDragMove` checks only `isDragging` — so a drag that was already in
progress when the lock was engaged keeps moving the blob while
`centerLock = true`, and the subsequent tick (which returns early for an
active drag) leaves the dragged position in place instead of pinning the
center.  Concretely: start a drag at the center, lock, move the pointer by
20 px in a 100 px container, tick: the state is locked yet the position is
(0.7, 0.5) ≠ (0.5, 0.5). -/
theorem centerLock_does_not_disable_ongoing_drag :
    (run (init 0 45 idPerm)
      [.dragStart 0 0, .lockToCenter, .dragMove 20 0 100 100, .tick]).centerLock = true ∧
    (run (init 0 45 idPerm)
      [.dragStart 0 0, .lockToCenter, .dragMove 20 0 100 100, .tick]).posX = 0.7 ∧
    (run (init 0 45 idPerm)
      [.dragStart 0 0, .lockToCenter, .dragMove 20 0 100 100, .tick]).posY = 0.5 ∧
    (0.7 : ℝ) ≠ 1/2 := by
  have hns : ¬ (0.48 : ℝ) <
      Real.sqrt ((1/2 + (20 - 0)/100 - 1/2) ^ 2 + (1/2 + (0 - 0)/100 - 1/2) ^ 2) := by
    push_neg
    exact sqrt_le_of_sq_le (by norm_num) (by norm_num)
  refine ⟨rfl, ?_, ?_, by norm_num⟩
  · show (clampToRadius 0.48 (1/2 + (20 - 0)/100) (1/2 + (0 - 0)/100)).1 = 0.7
    rw [clampToRadius]
    rw [if_neg hns]
    norm_num
  · show (clampToRadius 0.48 (1/2 + (20 - 0)/100) (1/2 + (0 - 0)/100)).2 = 0.5
    rw [clampToRadius]
    rw [if_neg hns]
    norm_num

/-- C6 amended: while `centerLock` is engaged, every tick with *no drag in
progress* pins the position to the exact center, and no *new* drag can
start (`handleDragStart` is a no-op while locked); however a drag that was
already in progress when the lock was engaged is not disabled — see the
counterexample. -/
theorem centerLock_spec :
    (∀ s : BlobState, s.centerLock = true → s.isDragging = false →
      (tick s).posX = 1/2 ∧ (tick s).posY = 1/2) ∧
    (∀ (cx cy : ℝ) (s : BlobState), s.centerLock = true →
      handleDragStart cx cy s = s) := by
  constructor
  · intro s hl hd
    rw [tick, updatePosition]
    rw [if_neg (by simp [hd])]
    rw [if_pos (show ({ s with time := s.time + 16 } : BlobState).centerLock = true from hl)]
    exact ⟨rfl, rfl⟩
  · intro cx cy s hl
    rw [handleDragStart, if_pos hl]

/-- Witness for the amended C6 theorem on the locked initial state. -/
theorem centerLock_spec_witness :
    (tick (lockToCenter (init 0 45 idPerm))).posX = 1/2 ∧
    handleDragStart 3 4 (lockToCenter (init 0 45 idPerm)) =
      lockToCenter (init 0 45 idPerm) :=
  ⟨(centerLock_spec.1 (lockToCenter (init 0 45 idPerm)) rfl rfl).1,
   centerLock_spec.2 3 4 (lockToCenter (init 0 45 idPerm)) rfl⟩

end Blob

namespace Blob

/-- A tick during the center-lock ease-out (and before its 800 ms elapse,
with no drag and no edge return active) advances the clock by 16 ms and
leaves all the ease-out control fields in place. -/
theorem tick_ctrl_easeOut (s : BlobState)
    (hd : s.isDragging = false) (hl : s.centerLock = false)
    (he : s.centerLockEaseOut = true) (hr : s.edgeReturnEasing = false)
    (ht : (s.time + 16 - s.centerLockEaseStart) / 800 < 1) :
    (tick s).time = s.time + 16 ∧
    (tick s).isDragging = false ∧
    (tick s).centerLock = false ∧
    (tick s).centerLockEaseOut = true ∧
    (tick s).centerLockEaseStart = s.centerLockEaseStart ∧
    (tick s).edgeReturnEasing = false := by
  have hmin : min 1 ((s.time + 16 - s.centerLockEaseStart) / 800) < 1 :=
    lt_of_le_of_lt (min_le_right _ _) ht
  refine ⟨?_, ?_, ?_, ?_, ?_, ?_⟩ <;>
    simp [tick, updatePosition, hd, hl, he, hr, ht, if_neg (not_le.2 hmin)]

/-- Control-state evolution after `lockToCenter` then `unlockFromCenter`:
for the first 49 ticks the ease-out stays active with its start stamp at
the unlock time. -/
theorem easeOut_trace (t0 a : ℝ) (perm : PermTable) (k : ℕ) (hk : k ≤ 49) :
    (tick^[k] (unlockFromCenter (lockToCenter (init t0 a perm)))).time = t0 + 16 * k ∧
    (tick^[k] (unlockFromCenter (lockToCenter (init t0 a perm)))).isDragging = false ∧
    (tick^[k] (unlockFromCenter (lockToCenter (init t0 a perm)))).centerLock = false ∧
    (tick^[k] (unlockFromCenter (lockToCenter (init t0 a perm)))).centerLockEaseOut = true ∧
    (tick^[k] (unlockFromCenter (lockToCenter (init t0 a perm)))).centerLockEaseStart = t0 ∧
    (tick^[k] (unlockFromCenter (lockToCenter (init t0 a perm)))).edgeReturnEasing = false := by
  induction k with
  | zero =>
    refine ⟨?_, rfl, rfl, rfl, rfl, rfl⟩
    show t0 = t0 + 16 * (0 : ℕ)
    norm_num
  | succ k ih =>
    have hk' : k ≤ 49 := le_trans (Nat.le_succ k) hk
    obtain ⟨iht, ihd, ihl, ihe, ihs, ihr⟩ := ih hk'
    have hk48 : k ≤ 48 := by omega
    have hksz : ((k : ℝ)) ≤ 48 := by exact_mod_cast hk48
    have hlt : ((tick^[k] (unlockFromCenter (lockToCenter (init t0 a perm)))).time + 16 -
        (tick^[k] (unlockFromCenter (lockToCenter (init t0 a perm)))).centerLockEaseStart) /
          800 < 1 := by
      rw [iht, ihs]
      rw [div_lt_one (by norm_num)]
      linarith
    have hstep := tick_ctrl_easeOut _ ihd ihl ihe ihr hlt
    rw [Function.iterate_succ_apply']
    refine ⟨?_, hstep.2.1, hstep.2.2.1, hstep.2.2.2.1, ?_, hstep.2.2.2.2.2⟩
    · rw [hstep.1, iht]
      push_cast
      ring
    · rw [hstep.2.2.2.2.1, ihs]

/-- The morph intensity the next frame will use, in the ease-out state. -/
theorem tickMorph_easeOut {s : BlobState} (hl : s.centerLock = false)
    (he : s.centerLockEaseOut = true) :
    tickMorph s = 0.1 + min 1 ((s.time + 16 - s.centerLockEaseStart) / 800) * 0.9 := by
  rw [tickMorph, morphIntensity, if_neg (by simp [hl]), if_pos he]

/-- C8 counterexample.  Unlock the blob from center lock and advance 24
ticks: the next frame (at elapsed time 400 ms of the 800 ms ramp) uses
morph intensity `0.1 + (400/800)·0.9 = 0.55`.  A cubic ease-out ramp from
0.1 to 1, as the claim states, would instead give
`0.1 + (1 - (1 - 400/800)³)·0.9 = 0.8875` at that frame: the code's ramp is
linear, not cubic. -/
theorem morphIntensity_ramp_not_cubic :
    tickMorph (tick^[24] (unlockFromCenter (lockToCenter (init 0 45 idPerm)))) = 0.55 ∧
    (0.55 : ℝ) ≠ 0.1 + (1 - (1 - 400 / 800) ^ 3) * 0.9 := by
  constructor
  · obtain ⟨ht, _, hl, he, hs, _⟩ := easeOut_trace 0 45 idPerm 24 (by norm_num)
    rw [tickMorph_easeOut hl he, ht, hs]
    rw [min_eq_right (by norm_num)]
    norm_num
  · norm_num

/-- C8 amended: after `unlockFromCenter` the morph intensity ramps
*linearly* from 0.1 to 1 over the fixed 800 ms duration —
`0.1 + (elapsed/800)·0.9` at each frame — reaching exactly 1 at the frame
where the 800 ms elapse (the cubic ease-out of the unlock transition is
applied to the position interpolation, not to the morph intensity). -/
theorem morphIntensity_linear_ramp (t0 a : ℝ) (perm : PermTable) :
    (∀ k : ℕ, k ≤ 49 →
      tickMorph (tick^[k] (unlockFromCenter (lockToCenter (init t0 a perm)))) =
        0.1 + 16 * ((k : ℝ) + 1) / 800 * 0.9) ∧
    tickMorph (tick^[49] (unlockFromCenter (lockToCenter (init t0 a perm)))) = 1 := by
  have main : ∀ k : ℕ, k ≤ 49 →
      tickMorph (tick^[k] (unlockFromCenter (lockToCenter (init t0 a perm)))) =
        0.1 + 16 * ((k : ℝ) + 1) / 800 * 0.9 := by
    intro k hk
    obtain ⟨ht, _, hl, he, hs, _⟩ := easeOut_trace t0 a perm k hk
    rw [tickMorph_easeOut hl he, ht, hs]
    have hkr : ((k : ℝ)) ≤ 49 := by exact_mod_cast hk
    rw [show t0 + 16 * (k : ℝ) + 16 - t0 = 16 * ((k : ℝ) + 1) by ring]
    rw [min_eq_right (by rw [div_le_one (by norm_num)]; linarith)]
  refine ⟨main, ?_⟩
  rw [main 49 (le_refl _)]
  norm_num

/-- Witness for the amended C8 theorem at the mid-ramp frame. -/
theorem morphIntensity_linear_ramp_witness :
    tickMorph (tick^[24] (unlockFromCenter (lockToCenter (init 2 90 idPerm)))) =
      0.1 + 16 * ((24 : ℕ) + 1 : ℝ) / 800 * 0.9 :=
  (morphIntensity_linear_ramp 2 90 idPerm).1 24 (by norm_num)

end Blob

namespace Blob

/-- If the (unclamped) point is already within radius `r`, the clamp is the
identity. -/
theorem clampToRadius_id {r x y : ℝ} (hr : 0 ≤ r)
    (h : (x - 1/2) ^ 2 + (y - 1/2) ^ 2 ≤ r ^ 2) : clampToRadius r x y = (x, y) := by
  rw [clampToRadius, if_neg (not_lt.2 (sqrt_le_of_sq_le hr h))]

/-- Evaluation of the identity-table noise at the wobble argument used 38
ticks after the release in the C5 trace: `0.0456 = 57/1250`. -/
theorem noise_eval :
    noise2D idPerm (57/1250) 0 = 57/1250 + fade (57/1250) * (1 - 2 * (57/1250)) := by
  have hfl : ⌊(57/1250 : ℝ)⌋ = 0 := by
    rw [Int.floor_eq_zero_iff]
    constructor <;> norm_num
  simp [noise2D, idPerm, hfl, grad, lerp]
  simp [fade]
  first
  | exact Or.inl trivial
  | exact Or.inl (by ring)

/-- A tick during the edge-return easing (before the 600 ms elapse, with no
drag, lock or center-lock ease active) advances the clock by 16 ms and
preserves all edge-return control fields. -/
theorem tick_ctrl_edgeReturn (s : BlobState)
    (hd : s.isDragging = false) (hl : s.centerLock = false)
    (he : s.centerLockEaseOut = false) (hr : s.edgeReturnEasing = true)
    (ht : (s.time + 16 - s.edgeReturnStart) / 600 < 1) :
    (tick s).time = s.time + 16 ∧
    (tick s).isDragging = false ∧
    (tick s).centerLock = false ∧
    (tick s).centerLockEaseOut = false ∧
    (tick s).edgeReturnEasing = true ∧
    (tick s).edgeReturnStart = s.edgeReturnStart ∧
    (tick s).edgeReturnStartX = s.edgeReturnStartX ∧
    (tick s).edgeReturnStartY = s.edgeReturnStartY ∧
    (tick s).oscillationPhaseOffset = s.oscillationPhaseOffset ∧
    (tick s).trendAngle = s.trendAngle ∧
    (tick s).perm = s.perm := by
  have hmin : min 1 ((s.time + 16 - s.edgeReturnStart) / 600) < 1 :=
    lt_of_le_of_lt (min_le_right _ _) ht
  refine ⟨?_, ?_, ?_, ?_, ?_, ?_, ?_, ?_, ?_, ?_, ?_⟩ <;>
    simp [tick, updatePosition, hd, hl, he, hr, ht, if_neg (not_le.2 hmin)]

/-- The tick that completes the edge-return easing of the C5 trace: the
eased base lands at radius exactly 0.35, but the rendered position adds the
oscillation (along the trend direction, here vertical) and the
perpendicular noise wobble (here horizontal, pushing outward since the
identity-table noise is positive at the sampled argument), ending up
strictly outside the comfortable radius. -/
theorem tick_edge_complete (s : BlobState)
    (hd : s.isDragging = false) (hl : s.centerLock = false)
    (he : s.centerLockEaseOut = false) (hr : s.edgeReturnEasing = true)
    (htime : s.time = 592) (hstart : s.edgeReturnStart = 0)
    (hex : s.edgeReturnStartX = 0.068) (hey : s.edgeReturnStartY = 0.5)
    (hosc : s.oscillationPhaseOffset = 0) (hang : s.trendAngle = 180)
    (hperm : s.perm = idPerm) :
    (tick s).time = 608 ∧ 0.35 < radiusFromCenter (tick s) := by
  have hs432 : Real.sqrt (((0.068:ℝ) - 1/2) ^ 2 + (0.5 - 1/2) ^ 2) = 0.432 := by
    rw [show (((0.068:ℝ) - 1/2) ^ 2 + (0.5 - 1/2) ^ 2) = 0.432 ^ 2 by norm_num]
    exact Real.sqrt_sq (by norm_num)
  have hcos : Real.cos (((180:ℝ) - 90) * (Real.pi / 180)) = 0 := by
    rw [show (((180:ℝ) - 90) * (Real.pi / 180)) = Real.pi / 2 by ring]
    exact Real.cos_pi_div_two
  have hsin : Real.sin (((180:ℝ) - 90) * (Real.pi / 180)) = 1 := by
    rw [show (((180:ℝ) - 90) * (Real.pi / 180)) = Real.pi / 2 by ring]
    exact Real.sin_pi_div_two
  obtain ⟨hwl, hwu⟩ := noise2D_bounds idPerm (57/1250) 0
  have hsinb1 := Real.neg_one_le_sin (228/3125 : ℝ)
  have hsinb2 := Real.sin_le_one (228/3125 : ℝ)
  have hwpos : 0 < noise2D idPerm (57/1250) 0 := by
    rw [noise_eval]
    have hfn := fade_nonneg (t := 57/1250) (by norm_num)
    nlinarith
  rw [tick, updatePosition, radiusFromCenter]
  rw [if_neg (by simp [hd])]
  rw [if_neg (by simp [hl])]
  dsimp only
  simp only [htime, hstart, hex, hey, hosc, hang, hperm, he, hr, hd, hl]
  have hminE : min (1:ℝ) ((592 + 16 - 0) / 600) = 1 := min_eq_left (by norm_num)
  simp only [hs432, hminE, hcos, hsin, eq_self_iff_true, if_true, Bool.false_eq_true, if_false]
  norm_num
  rw [clampToRadius_id (by norm_num) (by nlinarith)]
  dsimp only
  apply Real.lt_sqrt_of_sq_lt
  nlinarith [sq_nonneg (Real.sin (228/3125 : ℝ))]

/-- A tick at which the 600 ms edge-return window has elapsed ends the
easing and stores, as the new oscillation base, exactly the release
direction scaled onto the comfortable 0.35 circle; the rendered position
itself stays within the hard 0.48 clamp. -/
theorem edge_return_completes (s : BlobState)
    (hd : s.isDragging = false) (hl : s.centerLock = false)
    (he : s.centerLockEaseOut = false) (hr : s.edgeReturnEasing = true)
    (ht : 600 ≤ s.time + 16 - s.edgeReturnStart)
    (_hD : 0 < Real.sqrt ((s.edgeReturnStartX - 1/2) ^ 2 + (s.edgeReturnStartY - 1/2) ^ 2)) :
    (tick s).edgeReturnEasing = false ∧
    ((tick s).dragEndPos.map Prod.fst).getD (1/2) =
      1/2 + (s.edgeReturnStartX - 1/2) /
        Real.sqrt ((s.edgeReturnStartX - 1/2) ^ 2 + (s.edgeReturnStartY - 1/2) ^ 2) * 0.35 ∧
    ((tick s).dragEndPos.map Prod.snd).getD (1/2) =
      1/2 + (s.edgeReturnStartY - 1/2) /
        Real.sqrt ((s.edgeReturnStartX - 1/2) ^ 2 + (s.edgeReturnStartY - 1/2) ^ 2) * 0.35 ∧
    radiusFromCenter (tick s) ≤ 0.48 := by
  have hminE : min (1:ℝ) ((s.time + 16 - s.edgeReturnStart) / 600) = 1 :=
    min_eq_left (by rw [le_div_iff₀ (by norm_num)]; linarith)
  rw [tick, updatePosition, radiusFromCenter]
  rw [if_neg (by simp [hd])]
  rw [if_neg (by simp [hl])]
  dsimp only
  simp only [he, hr, hd, hl, eq_self_iff_true, if_true, Bool.false_eq_true, if_false, hminE]
  norm_num
  exact sqrt_le_of_sq_le (by norm_num) (clampToRadius_bound _ _ _ (by norm_num))

/-- Full evaluation of the C5 release trace: drag from the center by
43.2 px left in a 100 px container (reaching radius 0.432 = 0.9 · 0.48) and
release.  The release stores the edge-return state. -/
theorem c5_drag_trace :
    run (init 0 180 idPerm) [.dragStart 0 0, .dragMove (-43.2) 0 100 100, .dragEnd] =
      { init 0 180 idPerm with
          posX := 0.068, posY := 0.5, hasMoved := true,
          dragStartPosX := 1/2, dragStartPosY := 1/2,
          dragEndPos := some (0.068, 0.5), edgeReturnEasing := true,
          edgeReturnStartX := 0.068, edgeReturnStartY := 0.5 } := by
  have habs : |(-43.2 : ℝ) - 0| = 43.2 := by
    rw [sub_zero, abs_of_nonpos (by norm_num : (-43.2:ℝ) ≤ 0)]
    norm_num
  have e2 : handleDragMove (-43.2) 0 100 100 (handleDragStart 0 0 (init 0 180 idPerm)) =
      { init 0 180 idPerm with
          isDragging := true, hasMoved := true,
          dragStartPosX := 1/2, dragStartPosY := 1/2, posX := 0.068, posY := 0.5 } := by
    rw [show handleDragStart 0 0 (init 0 180 idPerm) =
        ({ init 0 180 idPerm with
            isDragging := true, hasMoved := false,
            dragStartX := 0, dragStartY := 0,
            dragStartPosX := 1/2, dragStartPosY := 1/2 } : BlobState) from rfl]
    rw [handleDragMove, if_pos rfl]
    dsimp only
    rw [if_pos (Or.inl (by rw [habs]; norm_num) :
        (5:ℝ) < |(-43.2 : ℝ) - 0| ∨ (5:ℝ) < |(0:ℝ) - 0|)]
    rw [clampToRadius_id (by norm_num) (by norm_num)]
    simp only [init, BlobState.mk.injEq]
    norm_num
  show handleDragEnd (handleDragMove (-43.2) 0 100 100 (handleDragStart 0 0 (init 0 180 idPerm))) = _
  rw [e2, handleDragEnd, if_pos rfl]
  dsimp only
  rw [if_pos rfl]
  rw [if_pos (show (0.35:ℝ) < Real.sqrt (((0.068:ℝ) - 1/2) ^ 2 + ((0.5:ℝ) - 1/2) ^ 2) from by
    rw [show (((0.068:ℝ) - 1/2) ^ 2 + ((0.5:ℝ) - 1/2) ^ 2) = 0.432 ^ 2 by norm_num,
      Real.sqrt_sq (by norm_num)]
    norm_num)]
  simp only [init, BlobState.mk.injEq]

end Blob

namespace Blob

/-- C5 counterexample.  Drag the blob to radius 0.9 · 0.48 = 0.432 and
release: `easingBack` (edge-return easing) is triggered.  After 38 ticks
(608 ms ≥ the configured 600 ms) the easing has completed — yet the
position's distance from center is strictly greater than the comfortable
radius 0.35, because `updatePosition` adds the sine oscillation and the
noise wobble on top of the eased base, and here the wobble pushes outward.
So "position radius ≤ comfortable radius after the configured duration"
fails on the code (and with it the monotone-decrease of the excess). -/
theorem edge_return_duration_overshoot :
    (run (init 0 180 idPerm)
      [.dragStart 0 0, .dragMove (-43.2) 0 100 100, .dragEnd]).edgeReturnEasing = true ∧
    radiusFromCenter (run (init 0 180 idPerm)
      [.dragStart 0 0, .dragMove (-43.2) 0 100 100, .dragEnd]) = 0.9 * 0.48 ∧
    600 ≤ (tick^[38] (run (init 0 180 idPerm)
      [.dragStart 0 0, .dragMove (-43.2) 0 100 100, .dragEnd])).time -
      (run (init 0 180 idPerm)
        [.dragStart 0 0, .dragMove (-43.2) 0 100 100, .dragEnd]).edgeReturnStart ∧
    0.35 < radiusFromCenter (tick^[38] (run (init 0 180 idPerm)
      [.dragStart 0 0, .dragMove (-43.2) 0 100 100, .dragEnd])) := by
  rw [c5_drag_trace]
  set S3 : BlobState :=
    { init 0 180 idPerm with
        posX := 0.068, posY := 0.5, hasMoved := true,
        dragStartPosX := 1/2, dragStartPosY := 1/2,
        dragEndPos := some (0.068, 0.5), edgeReturnEasing := true,
        edgeReturnStartX := 0.068, edgeReturnStartY := 0.5 } with hS3
  have trace : ∀ k : ℕ, k ≤ 37 →
      (tick^[k] S3).time = 16 * k ∧
      (tick^[k] S3).isDragging = false ∧
      (tick^[k] S3).centerLock = false ∧
      (tick^[k] S3).centerLockEaseOut = false ∧
      (tick^[k] S3).edgeReturnEasing = true ∧
      (tick^[k] S3).edgeReturnStart = 0 ∧
      (tick^[k] S3).edgeReturnStartX = 0.068 ∧
      (tick^[k] S3).edgeReturnStartY = 0.5 ∧
      (tick^[k] S3).oscillationPhaseOffset = 0 ∧
      (tick^[k] S3).trendAngle = 180 ∧
      (tick^[k] S3).perm = idPerm := by
    intro k
    induction k with
    | zero =>
      intro _
      rw [Function.iterate_zero_apply]
      refine ⟨by norm_num [init], rfl, rfl, rfl, rfl, rfl, rfl, rfl, rfl, rfl, rfl⟩
    | succ k ih =>
      intro hk
      obtain ⟨it, id2, il, ie, ir, irs, irx, iry, io, ia, ip⟩ := ih (by omega)
      have hk36 : (k : ℝ) ≤ 36 := by exact_mod_cast (by omega : k ≤ 36)
      have hlt : ((tick^[k] S3).time + 16 - (tick^[k] S3).edgeReturnStart) / 600 < 1 := by
        rw [it, irs]
        rw [div_lt_one (by norm_num)]
        linarith
      have hstep := tick_ctrl_edgeReturn _ id2 il ie ir hlt
      rw [Function.iterate_succ_apply']
      refine ⟨?_, hstep.2.1, hstep.2.2.1, hstep.2.2.2.1, hstep.2.2.2.2.1, ?_, ?_, ?_, ?_, ?_, ?_⟩
      · rw [hstep.1, it]
        push_cast
        ring
      · rw [hstep.2.2.2.2.2.1, irs]
      · rw [hstep.2.2.2.2.2.2.1, irx]
      · rw [hstep.2.2.2.2.2.2.2.1, iry]
      · rw [hstep.2.2.2.2.2.2.2.2.1, io]
      · rw [hstep.2.2.2.2.2.2.2.2.2.1, ia]
      · rw [hstep.2.2.2.2.2.2.2.2.2.2, ip]
  obtain ⟨t37, d37, l37, e37, r37, rs37, rx37, ry37, o37, a37, p37⟩ := trace 37 (by norm_num)
  have ht592 : (tick^[37] S3).time = 592 := by rw [t37]; norm_num
  have hfin := tick_edge_complete _ d37 l37 e37 r37 ht592 rs37 rx37 ry37 o37 a37 p37
  have h38 : tick^[38] S3 = tick (tick^[37] S3) := Function.iterate_succ_apply' tick 37 S3
  refine ⟨rfl, ?_, ?_, ?_⟩
  · rw [radiusFromCenter]
    show Real.sqrt (((0.068:ℝ) - 1/2) ^ 2 + ((0.5:ℝ) - 1/2) ^ 2) = 0.9 * 0.48
    rw [show (((0.068:ℝ) - 1/2) ^ 2 + ((0.5:ℝ) - 1/2) ^ 2) = 0.432 ^ 2 by norm_num,
      Real.sqrt_sq (by norm_num)]
    norm_num
  · rw [h38, hfin.1]
    show (600:ℝ) ≤ 608 - (0:ℝ)
    norm_num
  · rw [h38]
    exact hfin.2

/-- C5 amended: releasing beyond the comfortable radius 0.35 does trigger
the edge-return easing (storing the release point and time), and at the
first tick where the configured 600 ms have elapsed the easing ends with
the stored oscillation *base* at distance exactly 0.35 from center; the
rendered position stays within the hard 0.48 clamp, but it is the base —
not the position itself — that respects the comfortable radius (the
position adds oscillation and wobble on top, see the counterexample). -/
theorem edge_return_spec :
    (∀ s : BlobState, s.isDragging = true → s.hasMoved = true →
        0.35 < radiusFromCenter s →
        (handleDragEnd s).edgeReturnEasing = true ∧
        (handleDragEnd s).edgeReturnStart = s.time ∧
        (handleDragEnd s).edgeReturnStartX = s.posX ∧
        (handleDragEnd s).edgeReturnStartY = s.posY) ∧
    (∀ s : BlobState, s.isDragging = false → s.centerLock = false →
        s.centerLockEaseOut = false → s.edgeReturnEasing = true →
        600 ≤ s.time + 16 - s.edgeReturnStart →
        0 < Real.sqrt ((s.edgeReturnStartX - 1/2) ^ 2 + (s.edgeReturnStartY - 1/2) ^ 2) →
        (tick s).edgeReturnEasing = false ∧
        Real.sqrt ((((tick s).dragEndPos.map Prod.fst).getD (1/2) - 1/2) ^ 2 +
          (((tick s).dragEndPos.map Prod.snd).getD (1/2) - 1/2) ^ 2) = 0.35 ∧
        radiusFromCenter (tick s) ≤ 0.48) := by
  constructor
  · intro s hd hm hrad
    rw [radiusFromCenter] at hrad
    rw [handleDragEnd, if_pos hd]
    dsimp only
    rw [if_pos hm, if_pos hrad]
    exact ⟨rfl, rfl, rfl, rfl⟩
  · intro s hd hl he hr ht hD
    obtain ⟨h1, h2, h3, h4⟩ := edge_return_completes s hd hl he hr ht hD
    refine ⟨h1, ?_, h4⟩
    rw [h2, h3]
    exact scaled_point_radius (by norm_num) hD

/-- Witness for the amended C5 theorem on concrete release and completion
states. -/
theorem edge_return_spec_witness :
    (handleDragEnd
      { init 0 90 idPerm with
          isDragging := true, hasMoved := true,
          posX := 0.932, posY := 0.5 }).edgeReturnEasing = true ∧
    (tick
      { init 0 90 idPerm with
          time := 592, edgeReturnEasing := true,
          edgeReturnStartX := 0.932, edgeReturnStartY := 0.5 }).edgeReturnEasing = false := by
  constructor
  · exact (edge_return_spec.1 _ rfl rfl (by
      rw [radiusFromCenter]
      exact Real.lt_sqrt_of_sq_lt (by norm_num))).1
  · exact (edge_return_spec.2 _ rfl rfl rfl rfl (by norm_num [init])
      (Real.sqrt_pos.2 (by norm_num))).1

end Blob
